import Mathlib

/-!
# velero-plugin-for-gcp: volume identity and snapshot tagging

A shallow embedding of `volume_snapshotter.go`.

Go strings are modelled as lists of Unicode scalar values (`Str`), that is,
as valid UTF-8 text.  A Go `(value, error)` result is modelled as a pair whose
second component is `none` for a `nil` error, or as an `Except` where the value
is `nil` whenever the error is not.  The conversion between the unstructured
and the typed persistent volume (`runtime.DefaultUnstructuredConverter`) is
taken as the identity on the typed fields the code reads and writes.

A Go `map[string]string` is the list of its entries, or `none` for the `nil`
map; `encoding/json` is modelled for such maps: the scanner of the whole JSON
grammar, the decoder of an object of strings, and the encoder with its
escapes and its order of keys.
-/

namespace Velero

/-- Go `string`. -/
abbrev Str := List Char

/-! ## Library functions of package `strings` -/

/-- Worker of `strings.Split` for a non-empty separator: `skip` counts the
characters of a separator occurrence still to be consumed; the head of the
result is the segment being read. -/
def splitAux (sep : Str) : Str → Nat → List Str
  | [], _ => [[]]
  | _ :: t, k + 1 => splitAux sep t k
  | c :: t, 0 =>
    if sep.isPrefixOf (c :: t) then [] :: splitAux sep t (sep.length - 1)
    else match splitAux sep t 0 with
      | [] => [[c]]
      | h :: r => (c :: h) :: r

/-- Go `strings.Split(s, sep)`: with an empty separator the string is exploded
into its characters. -/
def Split (s sep : Str) : List Str :=
  if sep = [] then s.map fun c => [c] else splitAux sep s 0

/-- Worker of `strings.LastIndex`: the greatest position, counted from `pos`,
at which `substr` occurs. -/
def lastIndexAux (substr : Str) : Str → Nat → Option Nat
  | [], pos => if substr.isPrefixOf [] then some pos else none
  | c :: t, pos =>
    match lastIndexAux substr t (pos + 1) with
    | some i => some i
    | none => if substr.isPrefixOf (c :: t) then some pos else none

/-- Go `strings.LastIndex(s, substr)`: `-1` when `substr` does not occur. -/
def LastIndex (s substr : Str) : Int :=
  match lastIndexAux substr s 0 with
  | some i => (i : Int)
  | none => -1

/-- Go slice expression `s[:n]` for an index that is in range. -/
def sliceTo (s : Str) (n : Int) : Str := s.take n.toNat

/-- Go slice expression `s[n:]` for an index that is in range. -/
def sliceFrom (s : Str) (n : Int) : Str := s.drop n.toNat

/-! ## Library package `regexp`, for the two patterns of the source -/

/-- Single-character matchers: a literal and a negated one-character class. -/
inductive CharClass where
  | only (c : Char)
  | except (c : Char)
  deriving DecidableEq, Repr

/-- Whether a character belongs to the class. -/
def CharClass.test : CharClass → Char → Bool
  | .only c, d => d == c
  | .except c, d => d != c

/-- Regular expressions, as far as the source uses them: anchors, literal
characters, the empty pattern, greedy repetition `+` of a character class, concatenation and
ordered alternation. -/
inductive Regexp where
  | eps
  | bol
  | eol
  | chr (c : Char)
  | plusClass (k : CharClass)
  | cat (a b : Regexp)
  | alt (a b : Regexp)
  deriving Repr

/-- Greedy `k+` at position `pos`: every way to consume one or more
characters of the class, the longest first. Each result is the position
reached and the input left. -/
def plusRun (k : CharClass) : Nat → Str → List (Nat × Str)
  | _, [] => []
  | pos, c :: t => if k.test c then plusRun k (pos + 1) t ++ [(pos + 1, t)] else []

/-- Backtracking run of a pattern from position `pos` with `s` still to read:
all the matches that start here, in the order of preference of a
leftmost-first engine. -/
def Regexp.run : Regexp → Nat → Str → List (Nat × Str)
  | .eps, pos, s => [(pos, s)]
  | .bol, pos, s => if pos = 0 then [(pos, s)] else []
  | .eol, pos, s => if s = [] then [(pos, s)] else []
  | .chr _, _, [] => []
  | .chr c, pos, d :: t => if d = c then [(pos + 1, t)] else []
  | .plusClass k, pos, s => plusRun k pos s
  | .cat a b, pos, s => (a.run pos s).flatMap fun p => b.run p.1 p.2
  | .alt a b, pos, s => a.run pos s ++ b.run pos s

/-- The pattern matching the characters of `s` one after the other. -/
def Regexp.str : Str → Regexp
  | [] => .eps
  | [c] => .chr c
  | c :: t => .cat (.chr c) (Regexp.str t)

/-- Worker of `MatchString`: is there a match starting at `pos` or later. -/
def matchFrom (re : Regexp) : Str → Nat → Bool
  | [], pos => !(re.run pos []).isEmpty
  | c :: t, pos => !(re.run pos (c :: t)).isEmpty || matchFrom re t (pos + 1)

/-- Go `(*Regexp).MatchString`: whether the string contains any match. -/
def Regexp.MatchString (re : Regexp) (s : Str) : Bool := matchFrom re s 0

/-- Go `extract` of package regexp, on the text after a `$` of a replacement
template: the name referred to, its number (`-1` for a name that is not a
number) and how many characters of the template the reference takes.
`isLetterOrDigit` stands for `unicode.IsLetter(r) || unicode.IsDigit(r)`. -/
def extract (isLetterOrDigit : Char → Bool) (str : Str) : Option (Str × Int × Nat) :=
  if str = [] then none
  else
    let brace : Bool := str.head? == some '{'
    let body : Str := if brace then str.drop 1 else str
    let name : Str := body.takeWhile fun r => isLetterOrDigit r || r == '_'
    if name = [] then none
    else if brace && (body.drop name.length).head? != some '}' then none
    else
      let digits : Option Nat := name.foldl
        (fun acc c => match acc with
          | none => none
          | some n =>
            if c < '0' || '9' < c || 100000000 ≤ n then none
            else some (n * 10 + (c.toNat - '0'.toNat)))
        (some 0)
      let num : Int := match digits with
        | none => -1
        | some n => if name.head? == some '0' && 1 < name.length then -1 else (n : Int)
      some (name, num, if brace then name.length + 2 else name.length)

/-- Go `(*Regexp).expand` for a pattern without capture groups, where the only
submatch is the whole match `m`: `$$` is a dollar sign, `$0` and `${0}` are
the match, every other well-formed reference is empty, and a `$` that starts
no reference is kept. `skip` counts template characters already consumed. -/
def expandAux (isLetterOrDigit : Char → Bool) (m : Str) : Str → Nat → Str
  | [], _ => []
  | _ :: t, k + 1 => expandAux isLetterOrDigit m t k
  | c :: t, 0 =>
    if c ≠ '$' then c :: expandAux isLetterOrDigit m t 0
    else if t.head? == some '$' then '$' :: expandAux isLetterOrDigit m t 1
    else match extract isLetterOrDigit t with
      | none => '$' :: expandAux isLetterOrDigit m t 0
      | some (_, num, used) =>
        (if num = 0 then m else []) ++ expandAux isLetterOrDigit m t used

/-- Worker of `ReplaceAllString`, reading the source from position `pos`.
`skip` counts the characters of the current match still to be passed over and
`prev` tells that the last match ended at `pos`. A replacement is inserted
for every match except an empty one right after another match. -/
def replaceAllAux (re : Regexp) (ex : Str → Str) : Str → Nat → Nat → Bool → Str
  | [], pos, _, prev =>
    match (re.run pos []).head? with
    | some _ => if prev && pos != 0 then [] else ex []
    | none => []
  | _ :: t, pos, skip + 1, _ => replaceAllAux re ex t (pos + 1) skip true
  | c :: t, pos, 0, prev =>
    match (re.run pos (c :: t)).head? with
    | none => c :: replaceAllAux re ex t (pos + 1) 0 false
    | some (e, _) =>
      if e = pos then
        (if prev && pos != 0 then [] else ex []) ++ c :: replaceAllAux re ex t (pos + 1) 0 false
      else
        ex ((c :: t).take (e - pos)) ++ replaceAllAux re ex t (pos + 1) (e - pos - 1) true

/-- Go `(*Regexp).ReplaceAllString(src, repl)`: every match of the pattern,
leftmost first and not overlapping, is replaced by the expansion of `repl`. -/
def Regexp.ReplaceAllString (isLetterOrDigit : Char → Bool) (re : Regexp)
    (src repl : Str) : Str :=
  replaceAllAux re (fun m => expandAux isLetterOrDigit m repl 0) src 0 0 true

/-! ## The volume snapshotter -/

/-- The supported CSI drivers: `pdCSIDriver[driver]`. -/
def pdCSIDriver (driver : Str) : Bool :=
  driver == "pd.csi.storage.gke.io".toList || driver == "gcp.csi.confidential.cloud".toList

/-- The class `[^\/]`. -/
def notSlash : CharClass := .except '/'

/-- The pattern `^projects\/[^\/]+\/(zones|regions)\/[^\/]+\/disks\/[^\/]+$`. -/
def pdVolRegexp : Regexp :=
  .cat .bol <| .cat (.str "projects/".toList) <| .cat (.plusClass notSlash) <|
  .cat (.chr '/') <| .cat (.alt (.str "zones".toList) (.str "regions".toList)) <|
  .cat (.chr '/') <| .cat (.plusClass notSlash) <| .cat (.str "/disks/".toList) <|
  .cat (.plusClass notSlash) .eol

/-- The pattern `projects\/[^\/]+\/` of `SetVolumeID`. -/
def projectRE : Regexp :=
  .cat (.str "projects/".toList) <| .cat (.plusClass notSlash) (.chr '/')

/-- The configuration fields of `VolumeSnapshotter`. -/
structure VolumeSnapshotter where
  snapshotLocation : Str := []
  volumeProject : Str := []
  snapshotProject : Str := []
  snapshotType : Str := []
  deriving DecidableEq, Repr

/-- The block `spec.csi` of a persistent volume. -/
structure CSIPersistentVolumeSource where
  Driver : Str
  VolumeHandle : Str
  FSType : Str := []
  deriving DecidableEq, Repr

/-- The block `spec.gcePersistentDisk` of a persistent volume. -/
structure GCEPersistentDiskVolumeSource where
  PDName : Str
  FSType : Str := []
  deriving DecidableEq, Repr

/-- The typed persistent volume, as far as the snapshotter reads it: both
blocks are pointers and may be absent. -/
structure PersistentVolume where
  CSI : Option CSIPersistentVolumeSource := none
  GCEPersistentDisk : Option GCEPersistentDiskVolumeSource := none
  deriving DecidableEq, Repr

/-- The error of `GetVolumeID` for a handle that is not of the fixed shape. -/
def getHandleError (driver handle : Str) : Str :=
  "invalid volumeHandle for CSI driver:".toList ++ driver ++
  ", expected projects/{project}/zones/{zone}/disks/{name}, got ".toList ++ handle

/-- The error of `SetVolumeID` for a handle that is not of the fixed shape. -/
def setHandleError (driver handle : Str) : Str :=
  "invalid volumeHandle for restore with CSI driver:".toList ++ driver ++
  ", expected projects/{project}/zones/{zone}/disks/{name}, got ".toList ++ handle

/-- The method `GetVolumeID`: the volume ID and the error (`none` for `nil`). -/
def GetVolumeID (pv : PersistentVolume) : Str × Option Str :=
  let inTree : Str × Option Str :=
    match pv.GCEPersistentDisk with
    | some gce =>
      if gce.PDName = [] then ([], some "spec.gcePersistentDisk.pdName not found".toList)
      else (gce.PDName, none)
    | none => ([], none)
  match pv.CSI with
  | some csi =>
    let driver := csi.Driver
    if pdCSIDriver driver then
      let handle := csi.VolumeHandle
      if !pdVolRegexp.MatchString handle then ([], some (getHandleError driver handle))
      else
        let l := Split handle "/".toList
        (l.getLastD [], none)
    else inTree
  | none => inTree

/-- The method `IsVolumeCreatedCrossProjects`. -/
def IsVolumeCreatedCrossProjects (b : VolumeSnapshotter) (volumeHandle : Str) : Bool :=
  let parsedStr := Split volumeHandle "/".toList
  if parsedStr.length < 2 then false
  else
    let projectID := parsedStr.getD 1 []
    if projectID ≠ b.volumeProject then true else false

/-- The method `SetVolumeID`: the updated volume, or the error. -/
def SetVolumeID (isLetterOrDigit : Char → Bool) (b : VolumeSnapshotter)
    (pv : PersistentVolume) (volumeID : Str) : Except Str PersistentVolume :=
  match pv.CSI with
  | some csi =>
    let driver := csi.Driver
    if pdCSIDriver driver then
      let handle := csi.VolumeHandle
      if !pdVolRegexp.MatchString handle then .error (setHandleError driver handle)
      else
        let handle :=
          if IsVolumeCreatedCrossProjects b handle == true then
            projectRE.ReplaceAllString isLetterOrDigit handle
              ("projects/".toList ++ b.volumeProject ++ "/".toList)
          else handle
        let newHandle := sliceTo handle (LastIndex handle "/".toList + 1) ++ volumeID
        .ok { pv with CSI := some { csi with VolumeHandle := newHandle } }
    else .error ("unable to handle CSI driver: ".toList ++ driver)
  | none =>
    match pv.GCEPersistentDisk with
    | some gce => .ok { pv with GCEPersistentDisk := some { gce with PDName := volumeID } }
    | none => .error "spec.csi and spec.gcePersistentDisk not found".toList

/-- The handle `projects/P/K/L/disks/N`. -/
def mkHandle (P K L N : Str) : Str :=
  "projects/".toList ++ P ++ '/' :: K ++ '/' :: L ++ "/disks/".toList ++ N

/-- The fixed shape of a volume handle in the words of the specification:
exactly the six segments `projects`, a project, `zones` or `regions`, a
location, `disks` and a name, the project, location and name not empty. -/
def isFixedShape (h : Str) : Bool :=
  match Split h "/".toList with
  | [a, p, k, l, d, n] =>
    a == "projects".toList && p != [] && (k == "zones".toList || k == "regions".toList) &&
      l != [] && d == "disks".toList && n != []
  | _ => false

/-- The fixed shape as a decomposition of the handle. -/
def Shape (h : Str) : Prop :=
  ∃ P K L N : Str, P ≠ [] ∧ '/' ∉ P ∧ (K = "zones".toList ∨ K = "regions".toList) ∧
    L ≠ [] ∧ '/' ∉ L ∧ N ≠ [] ∧ '/' ∉ N ∧ h = mkHandle P K L N

/-! ## Library package `encoding/json`, for maps from string to string -/

/-- The entries of a Go `map[string]string` that is not `nil`; the keys of a
map are distinct. -/
abbrev TagMap := List (Str × Str)

/-- A Go `map[string]string`: `none` is the `nil` map. -/
abbrev GoMap := Option TagMap

/-- Go `len(m)`. -/
def mapLen : GoMap → Nat
  | none => 0
  | some m => m.length

/-- Go `m[k] = v` on a map that is not `nil`. -/
def mapSet (m : TagMap) (k v : Str) : TagMap :=
  if m.any (fun p => p.1 == k) then m.map fun p => if p.1 == k then (k, v) else p
  else m ++ [(k, v)]

/-- Go `m[k]` with the `ok` flag. -/
def mapGet (m : GoMap) (k : Str) : Option Str :=
  match m with
  | none => none
  | some l => (l.find? fun p => p.1 == k).map Prod.snd

/-- How the decoder sees a JSON value that is to be stored in a Go string. -/
inductive JKind where
  | str (s : Str)
  | null
  | other
  deriving DecidableEq, Repr

/-- A JSON document as the decoder of a string map sees it. -/
inductive JTop where
  | obj (members : List (Str × JKind))
  | null
  | other
  deriving DecidableEq, Repr

/-- JSON white space. -/
def isSpace (c : Char) : Bool := c == ' ' || c == '\t' || c == '\r' || c == '\n'

/-- Skip JSON white space. -/
def skipSpace (s : Str) : Str := s.dropWhile isSpace

/-- The value of a hexadecimal digit. -/
def hexVal (c : Char) : Option Nat :=
  if '0' ≤ c ∧ c ≤ '9' then some (c.toNat - '0'.toNat)
  else if 'a' ≤ c ∧ c ≤ 'f' then some (c.toNat - 'a'.toNat + 10)
  else if 'A' ≤ c ∧ c ≤ 'F' then some (c.toNat - 'A'.toNat + 10)
  else none

/-- Go `getu4` after the `\u`: the number of four hexadecimal digits. -/
def getu4 : Str → Option (Nat × Str)
  | a :: b :: c :: d :: rest =>
    match hexVal a, hexVal b, hexVal c, hexVal d with
    | some x, some y, some z, some w => some (((x * 16 + y) * 16 + z) * 16 + w, rest)
    | _, _, _, _ => none
  | _ => none

/-- The character of a one-letter escape of a JSON string. -/
def simpleEscape (e : Char) : Option Char :=
  if e == '"' then some '"'
  else if e == '\\' then some '\\'
  else if e == '/' then some '/'
  else if e == 'b' then some (Char.ofNat 8)
  else if e == 'f' then some (Char.ofNat 12)
  else if e == 'n' then some '\n'
  else if e == 'r' then some '\r'
  else if e == 't' then some '\t'
  else none

/-- The Unicode replacement character. -/
def replacementChar : Char := Char.ofNat 0xFFFD

/-- The character of a `\u` escape `r`, which may be the first half of a
surrogate pair whose second half follows in `rest`: the character and the
input left. A surrogate without its partner is the replacement character. -/
def decodeU (r : Nat) (rest : Str) : Char × Str :=
  if 0xD800 ≤ r ∧ r < 0xE000 then
    match rest with
    | '\\' :: 'u' :: rest2 =>
      match getu4 rest2 with
      | some (r2, rest3) =>
        if r < 0xDC00 ∧ 0xDC00 ≤ r2 ∧ r2 < 0xE000 then
          (Char.ofNat ((r - 0xD800) * 1024 + (r2 - 0xDC00) + 0x10000), rest3)
        else (replacementChar, rest)
      | none => (replacementChar, rest)
    | _ => (replacementChar, rest)
  else (Char.ofNat r, rest)

/-- The scanner and `unquote` on a JSON string after its opening quote: the
text of the string and the input after the closing quote. Each step takes
one character or one escape. -/
def parseString : Nat → Str → Option (Str × Str)
  | 0, _ => none
  | _ + 1, [] => none
  | n + 1, c :: rest =>
    if c == '"' then some ([], rest)
    else if c == '\\' then
      match rest with
      | [] => none
      | e :: rest2 =>
        if e == 'u' then
          match getu4 rest2 with
          | none => none
          | some (r, rest3) =>
            let p := decodeU r rest3
            (parseString n p.2).map fun q => (p.1 :: q.1, q.2)
        else
          match simpleEscape e with
          | none => none
          | some d => (parseString n rest2).map fun q => (d :: q.1, q.2)
    else if c.toNat < 0x20 then none
    else (parseString n rest).map fun q => (c :: q.1, q.2)

/-- Whether a character is a decimal digit. -/
def isDigit (c : Char) : Bool := decide ('0' ≤ c ∧ c ≤ '9')

/-- The scanner on a JSON number: the input after it. -/
def skipNumber (s : Str) : Option Str :=
  let s1 := match s with
    | '-' :: t => t
    | _ => s
  let s2 : Option Str := match s1 with
    | [] => none
    | c :: t =>
      if c == '0' then some t
      else if isDigit c then some (t.dropWhile isDigit)
      else none
  match s2 with
  | none => none
  | some s3 =>
    let s4 : Option Str := match s3 with
      | '.' :: t =>
        match t with
        | [] => none
        | c :: t2 => if isDigit c then some (t2.dropWhile isDigit) else none
      | _ => some s3
    match s4 with
    | none => none
    | some s5 =>
      match s5 with
      | [] => some s5
      | c :: t =>
        if c == 'e' || c == 'E' then
          let t1 := match t with
            | [] => t
            | d :: t2 => if d == '+' || d == '-' then t2 else t
          match t1 with
          | [] => none
          | d :: t3 => if isDigit d then some (t3.dropWhile isDigit) else none
        else some s5

/-- The input after the given literal word. -/
def skipWord (w s : Str) : Option Str :=
  if w.isPrefixOf s then some (s.drop w.length) else none

/-- The nesting limit of the scanner. -/
def maxNestingDepth : Nat := 10000

mutual
/-- The scanner on a JSON value that starts at the head of the input, inside
`depth` arrays and objects: what the value is for a Go string, and the input
after it. -/
def parseValue : Nat → Nat → Str → Option (JKind × Str)
  | 0, _, _ => none
  | _ + 1, _, [] => none
  | n + 1, depth, c :: rest =>
    if c == '"' then (parseString (rest.length + 1) rest).map fun q => (JKind.str q.1, q.2)
    else if c == '{' then
      if maxNestingDepth < depth + 1 then none
      else (parseObject n (depth + 1) (skipSpace rest)).map fun q => (JKind.other, q.2)
    else if c == '[' then
      if maxNestingDepth < depth + 1 then none
      else (parseArray n (depth + 1) (skipSpace rest)).map fun q => (JKind.other, q)
    else if c == 't' then (skipWord "true".toList (c :: rest)).map fun q => (JKind.other, q)
    else if c == 'f' then (skipWord "false".toList (c :: rest)).map fun q => (JKind.other, q)
    else if c == 'n' then (skipWord "null".toList (c :: rest)).map fun q => (JKind.null, q)
    else if c == '-' || isDigit c then (skipNumber (c :: rest)).map fun q => (JKind.other, q)
    else none
termination_by structural n => n
/-- The scanner inside an object, after `{` and white space: the members and
the input after the closing brace. -/
def parseObject : Nat → Nat → Str → Option (List (Str × JKind) × Str)
  | 0, _, _ => none
  | _ + 1, _, [] => none
  | n + 1, depth, c :: rest =>
    if c == '}' then some ([], rest) else parseMembers n depth (c :: rest)
termination_by structural n => n
/-- The scanner on the members of an object, at the key of a member. -/
def parseMembers : Nat → Nat → Str → Option (List (Str × JKind) × Str)
  | 0, _, _ => none
  | _ + 1, _, [] => none
  | n + 1, depth, c :: rest =>
    if c == '"' then
      match parseString (rest.length + 1) rest with
      | none => none
      | some (key, r1) =>
        match skipSpace r1 with
        | [] => none
        | d :: r2 =>
          if d == ':' then
            match parseValue n depth (skipSpace r2) with
            | none => none
            | some (v, r3) =>
              match skipSpace r3 with
              | [] => none
              | e :: r4 =>
                if e == '}' then some ([(key, v)], r4)
                else if e == ',' then
                  (parseMembers n depth (skipSpace r4)).map fun q => ((key, v) :: q.1, q.2)
                else none
          else none
    else none
termination_by structural n => n
/-- The scanner inside an array, after `[` and white space. -/
def parseArray : Nat → Nat → Str → Option Str
  | 0, _, _ => none
  | _ + 1, _, [] => none
  | n + 1, depth, c :: rest =>
    if c == ']' then some rest else parseElements n depth (c :: rest)
termination_by structural n => n
/-- The scanner on the elements of an array, at an element. -/
def parseElements : Nat → Nat → Str → Option Str
  | 0, _, _ => none
  | n + 1, depth, s =>
    match parseValue n depth s with
    | none => none
    | some (_, r1) =>
      match skipSpace r1 with
      | [] => none
      | e :: r2 =>
        if e == ']' then some r2
        else if e == ',' then parseElements n depth (skipSpace r2)
        else none
termination_by structural n => n
end

/-- The scanner on a whole document (`checkValid`), keeping what the decoder
of a string map needs: `none` is a syntax error. The fuel is enough for every
document: a chain of calls of the scanner takes at most three calls for each
opening bracket and one for each comma. -/
def parseTop (data : Str) : Option JTop :=
  match skipSpace data with
  | [] => none
  | c :: rest =>
    let fuel := 3 * data.length + 3
    let r : Option (JTop × Str) :=
      if c == '{' then
        (parseObject fuel 1 (skipSpace rest)).map fun q => (JTop.obj q.1, q.2)
      else
        (parseValue fuel 0 (c :: rest)).map fun q =>
          (match q.1 with
            | JKind.null => JTop.null
            | _ => JTop.other, q.2)
    match r with
    | none => none
    | some (t, r2) => if skipSpace r2 = [] then some t else none

/-- The errors of `json.Unmarshal`. -/
inductive JSONError where
  | syntaxError
  | unmarshalTypeError
  deriving DecidableEq, Repr

/-- Storing the members of a JSON object in a map: a string is stored as it
is; for `null` and for a value of another type the empty string is stored,
and the latter is a type error, of which the first is kept. -/
def storeMembers : List (Str × JKind) → TagMap → Option JSONError → TagMap × Option JSONError
  | [], m, err => (m, err)
  | (k, .str v) :: t, m, err => storeMembers t (mapSet m k v) err
  | (k, .null) :: t, m, err => storeMembers t (mapSet m k []) err
  | (k, .other) :: t, m, err =>
    storeMembers t (mapSet m k []) (if err = none then some .unmarshalTypeError else err)

/-- Go `json.Unmarshal(data, &m)` for `m` of type `map[string]string`: the
value of `m` after the call, and the error. A document with a syntax error
leaves `m` as it is; `null` makes it `nil`; an object is stored into `m`,
which is made first when it is `nil`; any other value is a type error. -/
def Unmarshal (data : Str) (m : GoMap) : GoMap × Option JSONError :=
  match parseTop data with
  | none => (m, some .syntaxError)
  | some .null => (none, none)
  | some .other => (m, some .unmarshalTypeError)
  | some (.obj members) =>
    let r := storeMembers members (m.getD []) none
    (some r.1, r.2)

/-- The lower-case hexadecimal digit of a number below sixteen. -/
def hexDigit (n : Nat) : Char := "0123456789abcdef".toList.getD n '0'

/-- The encoding of one character inside a JSON string, as `json.Marshal`
writes it (with HTML escaping): a backslash before `"` and `\`, the short
escapes of backspace, form feed, line feed, carriage return and tab, `\u00XX`
for the other control characters and for `<`, `>` and `&`, `\u2028` and
`\u2029` for the two line separators, and every other character as it is
(the short escapes of backspace and form feed are those of Go 1.22 and
later; earlier versions write `\u0008` and `\u000c`, which decode alike). -/
def encodeChar (c : Char) : Str :=
  if c == '"' || c == '\\' then ['\\', c]
  else if c == Char.ofNat 8 then ['\\', 'b']
  else if c == Char.ofNat 12 then ['\\', 'f']
  else if c == '\n' then ['\\', 'n']
  else if c == '\r' then ['\\', 'r']
  else if c == '\t' then ['\\', 't']
  else if c.toNat < 0x20 || c == '<' || c == '>' || c == '&' then
    ['\\', 'u', '0', '0', hexDigit (c.toNat / 16), hexDigit (c.toNat % 16)]
  else if c == Char.ofNat 0x2028 then "\\u2028".toList
  else if c == Char.ofNat 0x2029 then "\\u2029".toList
  else [c]

/-- The encoding of a Go string as a JSON string. -/
def encodeString (s : Str) : Str := '"' :: (s.flatMap encodeChar ++ ['"'])

/-- The encoding of one entry of a map. -/
def encodeEntry (p : Str × Str) : Str := encodeString p.1 ++ ':' :: encodeString p.2

/-- The entries of a map in the order of their keys, in which `json.Marshal`
writes them. -/
def sortEntries (m : TagMap) : TagMap := m.insertionSort fun a b => a.1 ≤ b.1

/-- Go `json.Marshal(m)` for `m` of type `map[string]string`: `null` for the
`nil` map, and else the object of the entries in the order of their keys. No
call on such a map returns an error. -/
def Marshal (m : GoMap) : Except JSONError Str :=
  match m with
  | none => .ok "null".toList
  | some l => .ok ('{' :: ((",".toList).intercalate ((sortEntries l).map encodeEntry) ++ ['}']))

/-- The loop `for k, v := range veleroTags { snapshotTags[k] = v }`: the map
`snapshotTags` after it, or `none` when the loop writes into a `nil` map,
which aborts the program. -/
def rangeAssign (veleroTags snapshotTags : GoMap) : Option GoMap :=
  match veleroTags.getD [] with
  | [] => some snapshotTags
  | e :: es =>
    match snapshotTags with
    | none => none
    | some m => some (some ((e :: es).foldl (fun acc p => mapSet acc p.1 p.2) m))

/-- The function `getSnapshotTags` (the logger left out): the description of
the snapshot, or `none` when the run aborts. -/
def getSnapshotTags (veleroTags : GoMap) (diskDescription : Str) : Option Str :=
  let snapshotTags : Option GoMap :=
    if diskDescription ≠ [] then
      match Unmarshal diskDescription none with
      | (_, some _) => some veleroTags
      | (m, none) => rangeAssign veleroTags m
    else some veleroTags
  match snapshotTags with
  | none => none
  | some m =>
    if mapLen m = 0 then some []
    else
      match Marshal m with
      | .error _ => some []
      | .ok tagsJSON => some tagsJSON

/-- The merged map in the words of the specification: the value of the new
tags where the key is among them, and else that of the existing tags. -/
def mergedGet (newTags existing : GoMap) (k : Str) : Option Str :=
  match mapGet newTags k with
  | some v => some v
  | none => mapGet existing k

/-! ## More of package `strings`, and `strconv.Quote` -/

/-- The text up to and including the first occurrence of a non-empty `sep`,
and the text after it: `s[:m+len(sep)]` and `s[m+len(sep):]` for
`m := strings.Index(s, sep)`; `none` when `sep` does not occur. -/
def cutAfter (sep : Str) : Str → Option (Str × Str)
  | [] => none
  | c :: t =>
    if sep.isPrefixOf (c :: t) then some (sep, (c :: t).drop sep.length)
    else match cutAfter sep t with
      | none => none
      | some (a, b) => some (c :: a, b)

/-- Go `strings.Contains(s, substr)`. -/
def Contains (s substr : Str) : Bool :=
  if substr = [] then true else (cutAfter substr s).isSome

/-- The loop of `genSplit` that keeps the separators: at most `k` cuts. -/
def splitAfterLoop (sep : Str) : Nat → Str → List Str
  | 0, s => [s]
  | k + 1, s =>
    match cutAfter sep s with
    | none => [s]
    | some (a, b) => a :: splitAfterLoop sep k b

/-- Go `strings.SplitAfterN(s, sep, n)` for a count `n` that is not negative
and a separator that is not empty: at most `n` pieces (and at most
`len(s) + 1`), each but the last ending with the separator. -/
def SplitAfterN (s sep : Str) (n : Nat) : List Str :=
  if n = 0 then []
  else splitAfterLoop sep (min n (s.length + 1) - 1) s

/-- Go `strings.HasSuffix(s, suffix)`. -/
def HasSuffix (s suffix : Str) : Bool := suffix.reverse.isPrefixOf s.reverse

/-- Go `strings.TrimSuffix(s, suffix)`. -/
def TrimSuffix (s suffix : Str) : Str :=
  if HasSuffix s suffix then s.take (s.length - suffix.length) else s

/-- Go `unicode.ToUpper(r)`: the code for ASCII, and the case tables of
Unicode, which are given as `table`, for the other characters. -/
def unicodeToUpper (table : Char → Char) (r : Char) : Char :=
  if r.toNat ≤ 0x7F then
    if 'a' ≤ r ∧ r ≤ 'z' then Char.ofNat (r.toNat - ('a'.toNat - 'A'.toNat)) else r
  else table r

/-- Go `strings.ToUpper(s)`. -/
def ToUpper (table : Char → Char) (s : Str) : Str := s.map (unicodeToUpper table)

/-- Go `strconv.IsPrint(r)`: the code for the characters up to U+00FF, and the
tables of Unicode, which are given as `table`, for the others. -/
def IsPrint (table : Char → Bool) (r : Char) : Bool :=
  if r.toNat ≤ 0xFF then
    if 0x20 ≤ r.toNat ∧ r.toNat ≤ 0x7E then true
    else if 0xA1 ≤ r.toNat ∧ r.toNat ≤ 0xFF then r.toNat != 0xAD
    else false
  else table r

/-- The hexadecimal digits of `n`, `width` of them. -/
def hexDigits : Nat → Nat → Str
  | 0, _ => []
  | w + 1, n => hexDigits w (n / 16) ++ [hexDigit (n % 16)]

/-- Go `appendEscapedRune` of package strconv for the quote `"`. -/
def appendEscapedRune (table : Char → Bool) (r : Char) : Str :=
  if r == '"' || r == '\\' then ['\\', r]
  else if IsPrint table r then [r]
  else if r.toNat == 7 then ['\\', 'a']
  else if r.toNat == 8 then ['\\', 'b']
  else if r.toNat == 12 then ['\\', 'f']
  else if r == '\n' then ['\\', 'n']
  else if r == '\r' then ['\\', 'r']
  else if r == '\t' then ['\\', 't']
  else if r.toNat == 11 then ['\\', 'v']
  else if r.toNat < 0x20 || r.toNat == 0x7F then '\\' :: 'x' :: hexDigits 2 r.toNat
  else if r.toNat < 0x10000 then '\\' :: 'u' :: hexDigits 4 r.toNat
  else '\\' :: 'U' :: hexDigits 8 r.toNat

/-- Go `strconv.Quote(s)`, which formats the verb `%q`. -/
def Quote (table : Char → Bool) (s : Str) : Str :=
  '"' :: (s.flatMap (appendEscapedRune table) ++ ['"'])

/-! ## Zones and regions -/

/-- The constant `zoneSeparator`. -/
def zoneSeparator : Str := "__".toList

/-- The function `isMultiZone`. -/
def isMultiZone (volumeAZ : Str) : Bool := Contains volumeAZ zoneSeparator

/-- The error message of `parseRegion`. -/
def parseRegionError (isPrintTable : Char → Bool) (volumeAZ : Str) : Str :=
  "failed to parse region from zone: ".toList ++ Quote isPrintTable volumeAZ

/-- The function `parseRegion`: the region and the error (`none` for `nil`). -/
def parseRegion (isPrintTable : Char → Bool) (volumeAZ : Str) : Str × Option Str :=
  let zones := Split volumeAZ zoneSeparator
  let zone := zones.headD []
  let parts := SplitAfterN zone "-".toList 3
  if parts.length < 2 then ([], some (parseRegionError isPrintTable volumeAZ))
  else (parts.getD 0 [] ++ TrimSuffix (parts.getD 1 []) "-".toList, none)

/-! ## The name of a snapshot -/

/-- The name that `CreateSnapshot` builds from the volume ID and the suffix;
`none` when the slice expression `volumeID[0:63-len(suffix)]` is out of range,
which aborts the program. `len` and the slice expression of Go count bytes:
the elements of the two lists stand here for the bytes of the strings, which
for ASCII text are its characters. -/
def snapshotName (volumeID suffix : Str) : Option Str :=
  if (volumeID.length : Int) ≤ 63 - (suffix.length : Int) then some (volumeID ++ suffix)
  else if 63 - (suffix.length : Int) < 0 then none
  else some (volumeID.take (63 - (suffix.length : Int)).toNat ++ suffix)

/-- Whether a character is a lower-case letter `a` to `z`. -/
def isLowerLetter (c : Char) : Bool := decide ('a' ≤ c ∧ c ≤ 'z')

/-- The characters of an RFC 1035 label: lower-case letters, digits, hyphen. -/
def isLabelChar (c : Char) : Bool := isLowerLetter c || isDigit c || c == '-'

/-- An RFC 1035 label in the words of the claim: a lower-case letter, then
lower-case letters, digits or hyphens, the last character a letter or digit. -/
def isRFC1035Label (s : Str) : Bool :=
  (match s.head? with
    | some c => isLowerLetter c
    | none => false) &&
  s.all isLabelChar &&
  (match s.getLast? with
    | some c => isLowerLetter c || isDigit c
    | none => false)

/-- Whether a character is a lower-case hexadecimal digit. -/
def isLowerHex (c : Char) : Bool := isDigit c || decide ('a' ≤ c ∧ c ≤ 'f')

/-- The canonical string of a UUID as far as the claim describes it: 36
characters, lower-case hexadecimal digits and hyphens, the first and the last
a hexadecimal digit. -/
def isCanonicalUUID (u : Str) : Bool :=
  u.length == 36 && u.all (fun c => isLowerHex c || c == '-') &&
  (match u.head? with
    | some c => isLowerHex c
    | none => false) &&
  (match u.getLast? with
    | some c => isLowerHex c
    | none => false)

/-- The first zone of a failure-domain tag: `zones[0]` of `parseRegion`. -/
def firstZone (volumeAZ : Str) : Str := (Split volumeAZ zoneSeparator).headD []

/-- The failure-domain tag of the zones `A-B-C` for the letters `C` of `Cs`,
joined by the separator. -/
def mkZoneTag (A B : Str) (Cs : List Str) : Str :=
  zoneSeparator.intercalate (Cs.map fun C => A ++ '-' :: (B ++ '-' :: C))

/-! ## Errors and the provider -/

/-- An error returned by a call to the provider: a `*googleapi.Error` with its
HTTP status code, or an error of any other type. -/
inductive ProviderError where
  | api (code : Int) (message : Str)
  | other (message : Str)
  deriving DecidableEq, Repr

/-- A Go `error` of the snapshotter: one made from a message (`errors.New`,
`errors.Errorf`, `fmt.Errorf`), an error of the provider, or an error wrapped
by `errors.WithStack`. -/
inductive GoError where
  | text (message : Str)
  | provider (e : ProviderError)
  | withStack (cause : GoError)
  deriving DecidableEq, Repr

/-- A `compute.Quota`. Usage and limit are `float64` values read from a JSON
document, hence finite; they are modelled as rationals, on which `==` is
equality. -/
structure Quota where
  Metric : Str
  Usage : ℚ
  Limit : ℚ
  deriving DecidableEq, Repr

/-- A `compute.Project`, as far as it is read. -/
structure Project where
  Quotas : List Quota
  deriving DecidableEq, Repr

/-- A `compute.Disk`, as far as it is read (`DiskType` is its field `Type`). -/
structure Disk where
  Description : Str := []
  SelfLink : Str := []
  DiskType : Str := []
  deriving DecidableEq, Repr

/-- A `compute.Snapshot`, as far as it is written. -/
structure Snapshot where
  Name : Str
  Description : Str
  SourceDisk : Str
  SnapshotType : Str
  StorageLocations : List Str
  deriving DecidableEq, Repr

/-- The calls to the provider that the snapshotter issues. -/
inductive ProviderCall where
  | projectsGet (project : Str)
  | disksGet (project zone disk : Str)
  | regionDisksGet (project region disk : Str)
  | snapshotsInsert (project : Str) (snapshot : Snapshot)
  | snapshotsDelete (project snapshot : Str)
  deriving DecidableEq, Repr

/-- The provider (`b.gce`): what it answers to each call. -/
structure Provider where
  projectsGet : Str → Except ProviderError Project
  disksGet : Str → Str → Str → Except ProviderError Disk
  regionDisksGet : Str → Str → Str → Except ProviderError Disk
  snapshotsInsert : Str → Snapshot → Option ProviderError
  snapshotsDelete : Str → Str → Option ProviderError

/-- The outcome of a call that returns `(string, error)`, or `none` when the
run aborts, together with the calls issued to the provider, in their order. -/
abbrev Traced := Option (Str × Option GoError) × List ProviderCall

/-- The loop over `p.Quotas` in `CreateSnapshot`: whether it returns the
quota error. The loop stops at the first entry of metric `SNAPSHOTS`. -/
def snapshotsQuotaReached : List Quota → Bool
  | [] => false
  | quota :: rest =>
    if quota.Metric = "SNAPSHOTS".toList then
      if quota.Usage = quota.Limit then true else false
    else snapshotsQuotaReached rest

/-- The quota gate in the words of the claim: the first entry of the quota
list with metric `SNAPSHOTS` has usage equal to limit. -/
def quotaExhausted (quotas : List Quota) : Bool :=
  match quotas.find? fun q => q.Metric == "SNAPSHOTS".toList with
  | some q => decide (q.Usage = q.Limit)
  | none => false

/-- The error of the quota gate. -/
def quotaError : GoError :=
  .withStack (.text "snapshots quota on Google Cloud Platform has been reached".toList)

/-- The snapshot that `createSnapshot` and `createRegionSnapshot` insert. -/
def newSnapshot (b : VolumeSnapshotter) (snapshotName description : Str) (disk : Disk) :
    Snapshot :=
  { Name := snapshotName
    Description := description
    SourceDisk := disk.SelfLink
    SnapshotType := b.snapshotType
    StorageLocations := if b.snapshotLocation ≠ [] then [b.snapshotLocation] else [] }

/-- The method `createSnapshot`. -/
def createSnapshot (b : VolumeSnapshotter) (gce : Provider)
    (snapshotName volumeID volumeAZ : Str) (tags : GoMap) : Traced :=
  match gce.disksGet b.volumeProject volumeAZ volumeID with
  | .error err =>
    (some ([], some (.withStack (.provider err))), [.disksGet b.volumeProject volumeAZ volumeID])
  | .ok disk =>
    match getSnapshotTags tags disk.Description with
    | none => (none, [.disksGet b.volumeProject volumeAZ volumeID])
    | some description =>
      let gceSnap := newSnapshot b snapshotName description disk
      let calls := [.disksGet b.volumeProject volumeAZ volumeID,
        .snapshotsInsert b.snapshotProject gceSnap]
      match gce.snapshotsInsert b.snapshotProject gceSnap with
      | some err => (some ([], some (.withStack (.provider err))), calls)
      | none => (some (gceSnap.Name, none), calls)

/-- The method `createRegionSnapshot`. -/
def createRegionSnapshot (b : VolumeSnapshotter) (gce : Provider)
    (snapshotName volumeID volumeRegion : Str) (tags : GoMap) : Traced :=
  match gce.regionDisksGet b.volumeProject volumeRegion volumeID with
  | .error err =>
    (some ([], some (.withStack (.provider err))),
      [.regionDisksGet b.volumeProject volumeRegion volumeID])
  | .ok disk =>
    match getSnapshotTags tags disk.Description with
    | none => (none, [.regionDisksGet b.volumeProject volumeRegion volumeID])
    | some description =>
      let gceSnap := newSnapshot b snapshotName description disk
      let calls := [.regionDisksGet b.volumeProject volumeRegion volumeID,
        .snapshotsInsert b.snapshotProject gceSnap]
      match gce.snapshotsInsert b.snapshotProject gceSnap with
      | some err => (some ([], some (.withStack (.provider err))), calls)
      | none => (some (gceSnap.Name, none), calls)

/-- The method `CreateSnapshot`. `newUUID` is the result of `uuid.NewV4()`,
the string of the identifier or the error. -/
def CreateSnapshot (b : VolumeSnapshotter) (gce : Provider) (isPrintTable : Char → Bool)
    (newUUID : Except GoError Str) (volumeID volumeAZ : Str) (tags : GoMap) : Traced :=
  match newUUID with
  | .error err => (some ([], some (.withStack err)), [])
  | .ok uid =>
    let suffix := '-' :: uid
    match gce.projectsGet b.volumeProject with
    | .error err =>
      (some ([], some (.withStack (.provider err))), [.projectsGet b.volumeProject])
    | .ok p =>
      if snapshotsQuotaReached p.Quotas then
        (some ([], some quotaError), [.projectsGet b.volumeProject])
      else
        match snapshotName volumeID suffix with
        | none => (none, [.projectsGet b.volumeProject])
        | some name =>
          if isMultiZone volumeAZ then
            match parseRegion isPrintTable volumeAZ with
            | (_, some err) =>
              (some ([], some (.withStack (.text err))), [.projectsGet b.volumeProject])
            | (volumeRegion, none) =>
              let r := createRegionSnapshot b gce name volumeID volumeRegion tags
              (r.1, .projectsGet b.volumeProject :: r.2)
          else
            let r := createSnapshot b gce name volumeID volumeAZ tags
            (r.1, .projectsGet b.volumeProject :: r.2)

/-- The method `DeleteSnapshot`: the error (`none` for `nil`) and the calls
issued. `http.StatusNotFound` is 404. -/
def DeleteSnapshot (b : VolumeSnapshotter) (gce : Provider) (snapshotID : Str) :
    Option GoError × List ProviderCall :=
  let err := gce.snapshotsDelete b.snapshotProject snapshotID
  let calls := [ProviderCall.snapshotsDelete b.snapshotProject snapshotID]
  match err with
  | some (.api code message) =>
    if code = 404 then (none, calls)
    else (some (.withStack (.provider (.api code message))), calls)
  | some e => (some (.withStack (.provider e)), calls)
  | none => (none, calls)

/-! ## Initialization -/

/-- The configuration keys. -/
def projectKey : Str := "project".toList

/-- The key of the snapshot location. -/
def snapshotLocationKey : Str := "snapshotLocation".toList

/-- The key of the snapshot type. -/
def snapshotTypeKey : Str := "snapshotType".toList

/-- The key of the volume project. -/
def volumeProjectKey : Str := "volumeProject".toList

/-- Go `config[key]` on a `map[string]string`: the empty string for a key
that is not in the map. -/
def configGet (config : GoMap) (key : Str) : Str := (mapGet config key).getD []

/-- The `google.Credentials`, as far as they are read. -/
structure Credentials where
  ProjectID : Str
  deriving DecidableEq, Repr

/-- The method `Init`. The results of the collaborators are given:
`validateKeys` is the error of `ValidateVolumeSnapshotterConfigKeys`,
`credentials` the credentials found, from the file of the configuration or
by default, or the error that `Init` returns for them, and `newService` the
error of `compute.NewService`; `toUpperTable` and `isPrintTable` are the
tables of Unicode that `strings.ToUpper` and `%q` use. -/
def Init (toUpperTable : Char → Char) (isPrintTable : Char → Bool) (config : GoMap)
    (validateKeys : Option GoError) (credentials : Except GoError Credentials)
    (newService : Option GoError) : Except GoError VolumeSnapshotter :=
  match validateKeys with
  | some err => .error err
  | none =>
    match credentials with
    | .error err => .error err
    | .ok creds =>
      let snapshotLocation := configGet config snapshotLocationKey
      let volumeProject :=
        if configGet config volumeProjectKey = [] then creds.ProjectID
        else configGet config volumeProjectKey
      let snapshotProject :=
        if configGet config projectKey = [] then volumeProject
        else configGet config projectKey
      let snapshotType := ToUpper toUpperTable (configGet config snapshotTypeKey)
      let chosen : Except GoError Str :=
        if snapshotType = [] then .ok "STANDARD".toList
        else if snapshotType = "STANDARD".toList ∨ snapshotType = "ARCHIVE".toList then
          .ok snapshotType
        else .error (.text ("unsupported snapshot type: ".toList ++
          Quote isPrintTable snapshotType))
      match chosen with
      | .error err => .error err
      | .ok ty =>
        match newService with
        | some err => .error (.withStack err)
        | none =>
          .ok { snapshotLocation := snapshotLocation
                volumeProject := volumeProject
                snapshotProject := snapshotProject
                snapshotType := ty }

/-! ## Lemmas on splitting at a character -/

theorem splitAux_ne_nil (sep s : Str) (k : Nat) : splitAux sep s k ≠ [] := by
  induction s generalizing k with
  | nil => simp [splitAux]
  | cons c t ih =>
    cases k with
    | succ k => simpa [splitAux] using ih k
    | zero =>
      simp only [splitAux]
      split
      · simp
      · split <;> simp

theorem splitAux_char_cons_sep (c : Char) (t : Str) :
    splitAux [c] (c :: t) 0 = [] :: splitAux [c] t 0 := by
  simp [splitAux, List.isPrefixOf]

theorem splitAux_char_cons_ne (c d : Char) (t : Str) (h : d ≠ c) :
    splitAux [c] (d :: t) 0 =
      ((splitAux [c] t 0).headD [] |>.cons d) :: (splitAux [c] t 0).tail := by
  have hne := splitAux_ne_nil [c] t 0
  simp only [splitAux, List.isPrefixOf, h, beq_iff_eq, Bool.false_and, Bool.and_true]
  cases hs : splitAux [c] t 0 with
  | nil => exact absurd hs hne
  | cons a r => simpa using fun e => h e.symm

/-- A text without the separator is a single segment. -/
theorem splitAux_char_of_not_mem (c : Char) (a : Str) (h : c ∉ a) :
    splitAux [c] a 0 = [a] := by
  induction a with
  | nil => simp [splitAux]
  | cons d t ih =>
    have hd : d ≠ c := fun e => h (by simp [e])
    have ht : c ∉ t := fun e => h (by simp [e])
    rw [splitAux_char_cons_ne c d t hd, ih ht]
    simp

/-- The first segment ends at the first separator. -/
theorem splitAux_char_append (c : Char) (a b : Str) (h : c ∉ a) :
    splitAux [c] (a ++ c :: b) 0 = a :: splitAux [c] b 0 := by
  induction a with
  | nil => simpa using splitAux_char_cons_sep c b
  | cons d t ih =>
    have hd : d ≠ c := fun e => h (by simp [e])
    have ht : c ∉ t := fun e => h (by simp [e])
    rw [List.cons_append, splitAux_char_cons_ne c d _ hd, ih ht]
    simp

/-- Splitting at a character is inverted by joining with it, and no segment
holds the character. -/
theorem splitAux_char_spec (c : Char) (s : Str) :
    (∀ x ∈ splitAux [c] s 0, c ∉ x) ∧ [c].intercalate (splitAux [c] s 0) = s := by
  induction s with
  | nil => simp [splitAux, List.intercalate]
  | cons d t ih =>
    obtain ⟨ih1, ih2⟩ := ih
    have hne := splitAux_ne_nil [c] t 0
    by_cases hd : d = c
    · subst hd
      rw [splitAux_char_cons_sep]
      refine ⟨?_, ?_⟩
      · intro x hx
        rcases List.mem_cons.1 hx with rfl | hx
        · simp
        · exact ih1 x hx
      · cases hs : splitAux [d] t 0 with
        | nil => exact absurd hs hne
        | cons a r =>
          rw [hs] at ih2
          simp only [List.intercalate, List.intersperse, List.flatten] at ih2 ⊢
          simp [ih2]
    · rw [splitAux_char_cons_ne c d t hd]
      cases hs : splitAux [c] t 0 with
      | nil => exact absurd hs hne
      | cons a r =>
        rw [hs] at ih1 ih2
        refine ⟨?_, ?_⟩
        · intro x hx
          rcases List.mem_cons.1 hx with rfl | hx
          · simp only [List.headD_cons, List.mem_cons, not_or]
            exact ⟨fun e => hd e.symm, ih1 a (by simp)⟩
          · exact ih1 x (by simp at hx ⊢; exact Or.inr hx)
        · cases r with
          | nil =>
            simp only [List.intercalate, List.intersperse, List.flatten] at ih2 ⊢
            simpa using ih2
          | cons a2 r2 =>
            simp only [List.intercalate, List.intersperse, List.flatten] at ih2 ⊢
            simpa using ih2

/-! ## Lemmas on the backtracking matcher -/

theorem mem_run_chr (c : Char) (pos : Nat) (s : Str) (p : Nat × Str) :
    p ∈ (Regexp.chr c).run pos s ↔ s = c :: p.2 ∧ p.1 = pos + 1 := by
  obtain ⟨e, r⟩ := p
  cases s with
  | nil => simp [Regexp.run]
  | cons d t =>
    by_cases h : d = c
    · subst h
      simp only [Regexp.run, ite_true, List.mem_singleton, Prod.mk.injEq, List.cons.injEq,
        true_and]
      constructor
      · rintro ⟨rfl, rfl⟩; exact ⟨rfl, rfl⟩
      · rintro ⟨rfl, rfl⟩; exact ⟨rfl, rfl⟩
    · simp [Regexp.run, h]

theorem mem_run_str (w : Str) (pos : Nat) (s : Str) (p : Nat × Str) :
    p ∈ (Regexp.str w).run pos s ↔ s = w ++ p.2 ∧ p.1 = pos + w.length := by
  induction w generalizing pos s with
  | nil =>
    obtain ⟨e, r⟩ := p
    simp only [Regexp.str, Regexp.run, List.mem_singleton, Prod.mk.injEq, List.nil_append,
      List.length_nil, Nat.add_zero]
    constructor
    · rintro ⟨rfl, rfl⟩; exact ⟨rfl, rfl⟩
    · rintro ⟨rfl, rfl⟩; exact ⟨rfl, rfl⟩
  | cons c t ih =>
    cases t with
    | nil => simpa [Regexp.str] using mem_run_chr c pos s p
    | cons d t2 =>
      simp only [Regexp.str, Regexp.run, List.mem_flatMap]
      constructor
      · rintro ⟨q, hq, hp⟩
        obtain ⟨h1, h2⟩ := (mem_run_chr c pos s q).1 hq
        obtain ⟨h3, h4⟩ := (ih q.1 q.2).1 hp
        refine ⟨?_, ?_⟩
        · rw [h1, h3]; simp
        · rw [h4, h2]; simp; omega
      · rintro ⟨h1, h2⟩
        refine ⟨(pos + 1, d :: t2 ++ p.2), ?_, ?_⟩
        · exact (mem_run_chr c pos s _).2 ⟨by rw [h1]; simp, rfl⟩
        · exact (ih _ _).2 ⟨rfl, by rw [h2]; simp; omega⟩

theorem mem_plusRun (k : CharClass) (pos : Nat) (s : Str) (p : Nat × Str) :
    p ∈ plusRun k pos s ↔
      ∃ a : Str, a ≠ [] ∧ (∀ x ∈ a, k.test x = true) ∧ s = a ++ p.2 ∧ p.1 = pos + a.length := by
  induction s generalizing pos with
  | nil =>
    simp only [plusRun, List.not_mem_nil, false_iff]
    rintro ⟨a, ha, -, hs, -⟩
    cases a with
    | nil => exact ha rfl
    | cons x a => simp at hs
  | cons c t ih =>
    by_cases hc : k.test c = true
    · simp only [plusRun, hc, ite_true, List.mem_append, List.mem_singleton]
      constructor
      · rintro (h | h)
        · obtain ⟨a, -, ha2, ha3, ha4⟩ := (ih (pos + 1)).1 h
          refine ⟨c :: a, by simp, ?_, by rw [ha3]; simp, by rw [ha4]; simp; omega⟩
          intro x hx
          rcases List.mem_cons.1 hx with rfl | hx
          · exact hc
          · exact ha2 x hx
        · refine ⟨[c], by simp, by simpa using hc, by rw [h]; rfl, by rw [h]; simp⟩
      · rintro ⟨a, ha1, ha2, ha3, ha4⟩
        cases a with
        | nil => exact absurd rfl ha1
        | cons x a =>
          simp only [List.cons_append, List.cons.injEq] at ha3
          obtain ⟨rfl, ht⟩ := ha3
          cases a with
          | nil =>
            right
            simp only [List.nil_append] at ht
            simp only [List.length_singleton] at ha4
            exact Prod.ext ha4 ht.symm
          | cons y a =>
            left
            refine (ih (pos + 1)).2 ⟨y :: a, by simp, ?_, ht, by rw [ha4]; simp; omega⟩
            intro z hz
            exact ha2 z (List.mem_cons_of_mem _ hz)
    · simp only [plusRun, hc, Bool.false_eq_true, ite_false, List.not_mem_nil, false_iff]
      rintro ⟨a, ha1, ha2, ha3, -⟩
      cases a with
      | nil => exact ha1 rfl
      | cons x a =>
        simp only [List.cons_append, List.cons.injEq] at ha3
        exact hc (ha3.1 ▸ ha2 x (by simp))

theorem notSlash_all (a : Str) : (∀ x ∈ a, notSlash.test x = true) ↔ '/' ∉ a := by
  simp only [notSlash, CharClass.test, bne_iff_ne, ne_eq]
  constructor
  · intro h hm; exact h _ hm rfl
  · intro h x hx e; exact h (e ▸ hx)



theorem mem_run_bol (pos : Nat) (s : Str) (p : Nat × Str) :
    p ∈ Regexp.bol.run pos s ↔ pos = 0 ∧ p = (pos, s) := by
  by_cases h : pos = 0 <;> simp [Regexp.run, h]

theorem mem_run_eol (pos : Nat) (s : Str) (p : Nat × Str) :
    p ∈ Regexp.eol.run pos s ↔ s = [] ∧ p = (pos, s) := by
  by_cases h : s = [] <;> simp [Regexp.run, h]

theorem mem_run_cat (a b : Regexp) (pos : Nat) (s : Str) (p : Nat × Str) :
    p ∈ (Regexp.cat a b).run pos s ↔ ∃ q, q ∈ a.run pos s ∧ p ∈ b.run q.1 q.2 := by
  simp [Regexp.run, List.mem_flatMap]

theorem mem_run_alt (a b : Regexp) (pos : Nat) (s : Str) (p : Nat × Str) :
    p ∈ (Regexp.alt a b).run pos s ↔ p ∈ a.run pos s ∨ p ∈ b.run pos s := by
  simp [Regexp.run]

theorem mem_run_plusClass (k : CharClass) (pos : Nat) (s : Str) (p : Nat × Str) :
    p ∈ (Regexp.plusClass k).run pos s ↔ p ∈ plusRun k pos s := by
  simp [Regexp.run]

theorem mem_run_pdVol (pos : Nat) (h : Str) (p : Nat × Str) :
    p ∈ pdVolRegexp.run pos h ↔ pos = 0 ∧ Shape h ∧ p = (h.length, []) := by
  simp only [pdVolRegexp, mem_run_cat, mem_run_alt, mem_run_plusClass, mem_run_str, mem_plusRun,
    mem_run_chr, mem_run_bol, mem_run_eol, notSlash_all, Shape, mkHandle]
  constructor
  · rintro ⟨q1, ⟨rfl, rfl⟩, q2, ⟨h2, e2⟩, q3, ⟨P, hP1, hP2, h3, e3⟩, q4, ⟨h4, e4⟩, q5, hK, q6,
      ⟨h6, e6⟩, q7, ⟨L, hL1, hL2, h7, e7⟩, q8, ⟨h8, e8⟩, q9, ⟨N, hN1, hN2, h9, e9⟩, h10, rfl⟩
    obtain ⟨a2, b2⟩ := q2; obtain ⟨a3, b3⟩ := q3; obtain ⟨a4, b4⟩ := q4
    obtain ⟨a5, b5⟩ := q5; obtain ⟨a6, b6⟩ := q6; obtain ⟨a7, b7⟩ := q7
    obtain ⟨a8, b8⟩ := q8; obtain ⟨a9, b9⟩ := q9
    simp only at h2 e2 h3 e3 h4 e4 hK h6 e6 h7 e7 h8 e8 h9 e9 h10
    subst h10 h9 h8 h7 h6
    have key : ∀ K : Str, b4 = K ++ '/' :: (L ++ ("/disks/".toList ++ (N ++ []))) →
        a5 = a4 + K.length →
        h = "projects/".toList ++ P ++ '/' :: K ++ '/' :: L ++ "/disks/".toList ++ N ∧
          a9 = h.length := by
      intro K hk ek
      subst hk h4 h3 h2
      refine ⟨by simp, ?_⟩
      simp only [List.length_append, List.length_cons, List.length_nil] at *
      omega
    rcases hK with ⟨hk, ek⟩ | ⟨hk, ek⟩
    · obtain ⟨k1, k2⟩ := key _ hk ek
      exact ⟨rfl, ⟨P, _, L, N, hP1, hP2, Or.inl rfl, hL1, hL2, hN1, hN2, k1⟩, by rw [k2]⟩
    · obtain ⟨k1, k2⟩ := key _ hk ek
      exact ⟨rfl, ⟨P, _, L, N, hP1, hP2, Or.inr rfl, hL1, hL2, hN1, hN2, k1⟩, by rw [k2]⟩
  · rintro ⟨rfl, ⟨P, K, L, N, hP1, hP2, hK, hL1, hL2, hN1, hN2, rfl⟩, rfl⟩
    refine ⟨(0, _), ⟨rfl, rfl⟩, (9, P ++ '/' :: K ++ '/' :: L ++ "/disks/".toList ++ N),
      ⟨by simp, by simp⟩, (9 + P.length, '/' :: K ++ '/' :: L ++ "/disks/".toList ++ N),
      ⟨P, hP1, hP2, by simp, rfl⟩, (9 + P.length + 1, K ++ '/' :: L ++ "/disks/".toList ++ N),
      ⟨by simp, rfl⟩, (9 + P.length + 1 + K.length, '/' :: L ++ "/disks/".toList ++ N), ?_,
      (9 + P.length + 1 + K.length + 1, L ++ "/disks/".toList ++ N), ⟨by simp, rfl⟩,
      (9 + P.length + 1 + K.length + 1 + L.length, "/disks/".toList ++ N),
      ⟨L, hL1, hL2, by simp, rfl⟩,
      (9 + P.length + 1 + K.length + 1 + L.length + 7, N), ⟨by simp, by simp⟩,
      (9 + P.length + 1 + K.length + 1 + L.length + 7 + N.length, []),
      ⟨N, hN1, hN2, by simp, rfl⟩, rfl, ?_⟩
    · rcases hK with rfl | rfl
      · left; exact ⟨by simp, by simp⟩
      · right; exact ⟨by simp, by simp⟩
    · simp only [List.length_append, List.length_cons, List.length_nil, Prod.mk.injEq, and_true]
      simp
      omega

theorem matchFrom_pdVol_pos (s : Str) (pos : Nat) (h : pos ≠ 0) :
    matchFrom pdVolRegexp s pos = false := by
  have hrun : ∀ (t : Str) (q : Nat), q ≠ 0 → pdVolRegexp.run q t = [] := by
    intro t q hq
    apply List.eq_nil_iff_forall_not_mem.2
    intro p hp
    exact hq ((mem_run_pdVol q t p).1 hp).1
  induction s generalizing pos with
  | nil => simp [matchFrom, hrun [] pos h]
  | cons c t ih => simp [matchFrom, hrun (c :: t) pos h, ih (pos + 1) (by omega)]

/-- The compiled pattern accepts exactly the handles of the fixed shape. -/
theorem MatchString_pdVol (h : Str) : pdVolRegexp.MatchString h = true ↔ Shape h := by
  have hrun : (!(pdVolRegexp.run 0 h).isEmpty) = true ↔ Shape h := by
    constructor
    · intro hne
      cases hr : pdVolRegexp.run 0 h with
      | nil => simp [hr] at hne
      | cons p r => exact ((mem_run_pdVol 0 h p).1 (by rw [hr]; simp)).2.1
    · intro hs
      have hm := (mem_run_pdVol 0 h (h.length, [])).2 ⟨rfl, hs, rfl⟩
      cases hr : pdVolRegexp.run 0 h with
      | nil => rw [hr] at hm; simp at hm
      | cons p r => simp
  cases h with
  | nil => simpa [Regexp.MatchString, matchFrom] using hrun
  | cons c t =>
    rw [← hrun]
    simp [Regexp.MatchString, matchFrom, matchFrom_pdVol_pos t 1 (by omega)]

/-- The segments of a handle of the fixed shape. -/
theorem Split_mkHandle (P K L N : Str) (hP : '/' ∉ P) (hK : '/' ∉ K) (hL : '/' ∉ L)
    (hN : '/' ∉ N) :
    Split (mkHandle P K L N) "/".toList = ["projects".toList, P, K, L, "disks".toList, N] := by
  have e : mkHandle P K L N =
      "projects".toList ++ '/' :: (P ++ '/' :: (K ++ '/' :: (L ++ '/' :: ("disks".toList ++
        '/' :: N)))) := by simp [mkHandle]
  have hsep : "/".toList = ['/'] := rfl
  rw [e, Split, hsep, if_neg (by simp), splitAux_char_append _ _ _ (by decide),
    splitAux_char_append _ _ _ hP, splitAux_char_append _ _ _ hK,
    splitAux_char_append _ _ _ hL, splitAux_char_append _ _ _ (by decide),
    splitAux_char_of_not_mem _ _ hN]

theorem not_mem_of_zones_or_regions (K : Str)
    (hK : K = "zones".toList ∨ K = "regions".toList) : '/' ∉ K := by
  rcases hK with rfl | rfl <;> decide

/-- The shape in the words of the specification is the decomposition. -/
theorem isFixedShape_iff (h : Str) : isFixedShape h = true ↔ Shape h := by
  constructor
  · intro hs
    have hsep : "/".toList = ['/'] := rfl
    have hspec := splitAux_char_spec '/' h
    unfold isFixedShape at hs
    rw [Split, hsep, if_neg (by simp)] at hs
    split at hs
    · rename_i a p k l d n heq
      rw [heq] at hspec
      obtain ⟨hno, hjoin⟩ := hspec
      simp only [Bool.and_eq_true, beq_iff_eq, bne_iff_ne, ne_eq, Bool.or_eq_true] at hs
      obtain ⟨⟨⟨⟨⟨ha, hp⟩, hk⟩, hl⟩, hd⟩, hn⟩ := hs
      refine ⟨p, k, l, n, hp, hno p (by simp), hk, hl, hno l (by simp), hn, hno n (by simp), ?_⟩
      rw [← hjoin, ha, hd]
      simp [List.intercalate, List.intersperse, List.flatten, mkHandle]
    · exact absurd hs (by simp)
  · rintro ⟨P, K, L, N, hP1, hP2, hK, hL1, hL2, hN1, hN2, rfl⟩
    unfold isFixedShape
    rw [Split_mkHandle P K L N hP2 (not_mem_of_zones_or_regions K hK) hL2 hN2]
    rcases hK with rfl | rfl <;> simp [hP1, hL1, hN1]


/-! ## Lemmas on the last separator -/

theorem lastIndexAux_none (c : Char) (b : Str) (pos : Nat) (h : c ∉ b) :
    lastIndexAux [c] b pos = none := by
  induction b generalizing pos with
  | nil => simp [lastIndexAux, List.isPrefixOf]
  | cons d t ih =>
    have hd : c ≠ d := fun e => h (by simp [e])
    have ht : c ∉ t := fun e => h (by simp [e])
    simp [lastIndexAux, ih (pos + 1) ht, List.isPrefixOf, hd]

theorem lastIndexAux_append (c : Char) (a b : Str) (pos : Nat) (h : c ∉ b) :
    lastIndexAux [c] (a ++ c :: b) pos = some (pos + a.length) := by
  induction a generalizing pos with
  | nil => simp [lastIndexAux, lastIndexAux_none c b (pos + 1) h, List.isPrefixOf]
  | cons d t ih =>
    have e := ih (pos + 1)
    rw [List.cons_append, lastIndexAux, e, List.length_cons]
    exact congrArg some (by omega)

/-- Cutting a text after its last separator. -/
theorem sliceTo_LastIndex (a b : Str) (h : '/' ∉ b) :
    sliceTo (a ++ '/' :: b) (LastIndex (a ++ '/' :: b) "/".toList + 1) = a ++ ['/'] := by
  have hsep : "/".toList = ['/'] := rfl
  rw [LastIndex, hsep, lastIndexAux_append '/' a b 0 h]
  simp only [Nat.zero_add, sliceTo]
  have : ((a.length : Int) + 1).toNat = a.length + 1 := by omega
  rw [this, List.take_append_eq_append_take]
  simp

theorem mkHandle_eq_append (P K L N : Str) :
    mkHandle P K L N =
      ("projects/".toList ++ P ++ '/' :: K ++ '/' :: L ++ "/disks".toList) ++ '/' :: N := by
  simp [mkHandle]

theorem append_slash_eq_mkHandle (P K L N : Str) :
    ("projects/".toList ++ P ++ '/' :: K ++ '/' :: L ++ "/disks".toList) ++ ['/'] ++ N =
      mkHandle P K L N := by
  simp [mkHandle]

theorem IsVolumeCreatedCrossProjects_mkHandle (b : VolumeSnapshotter) (P K L N : Str)
    (hP : '/' ∉ P) (hK : '/' ∉ K) (hL : '/' ∉ L) (hN : '/' ∉ N) :
    IsVolumeCreatedCrossProjects b (mkHandle P K L N) = decide (P ≠ b.volumeProject) := by
  have hsep : "/".toList = ['/'] := rfl
  have hs := Split_mkHandle P K L N hP hK hL hN
  rw [hsep] at hs
  simp [IsVolumeCreatedCrossProjects, hs]


theorem Shape_mkHandle (P K L N : Str) (hP1 : P ≠ []) (hP2 : '/' ∉ P)
    (hK : K = "zones".toList ∨ K = "regions".toList) (hL1 : L ≠ []) (hL2 : '/' ∉ L)
    (hN1 : N ≠ []) (hN2 : '/' ∉ N) : Shape (mkHandle P K L N) :=
  ⟨P, K, L, N, hP1, hP2, hK, hL1, hL2, hN1, hN2, rfl⟩

theorem newHandle_mkHandle (P K L N newID : Str) (hN2 : '/' ∉ N) :
    sliceTo (mkHandle P K L N) (LastIndex (mkHandle P K L N) "/".toList + 1) ++ newID =
      mkHandle P K L newID := by
  rw [mkHandle_eq_append, sliceTo_LastIndex _ _ hN2, append_slash_eq_mkHandle]

/-! ## The claims -/

/-- C3. Same-project set: on a snapshotter whose volume project is `P`, for a
CSI volume with a supported driver and the handle `projects/P/K/L/disks/N` of
the fixed shape, `SetVolumeID` with any new ID yields the handle
`projects/P/K/L/disks/<new ID>`, which is the original handle up to and
including its last `/` followed by the new ID. -/
theorem setVolumeID_same_project (u : Char → Bool) (b : VolumeSnapshotter)
    (pv : PersistentVolume) (csi : CSIPersistentVolumeSource) (P K L N newID : Str)
    (hcsi : pv.CSI = some csi) (hd : pdCSIDriver csi.Driver = true)
    (hP1 : P ≠ []) (hP2 : '/' ∉ P) (hK : K = "zones".toList ∨ K = "regions".toList)
    (hL1 : L ≠ []) (hL2 : '/' ∉ L) (hN1 : N ≠ []) (hN2 : '/' ∉ N)
    (hh : csi.VolumeHandle = mkHandle P K L N) (hproj : b.volumeProject = P) :
    SetVolumeID u b pv newID =
        .ok { pv with CSI := some { csi with VolumeHandle := mkHandle P K L newID } } ∧
      mkHandle P K L newID =
        sliceTo csi.VolumeHandle (LastIndex csi.VolumeHandle "/".toList + 1) ++ newID := by
  have hm : pdVolRegexp.MatchString (mkHandle P K L N) = true :=
    (MatchString_pdVol _).2 (Shape_mkHandle P K L N hP1 hP2 hK hL1 hL2 hN1 hN2)
  have hx : IsVolumeCreatedCrossProjects b (mkHandle P K L N) = false := by
    rw [IsVolumeCreatedCrossProjects_mkHandle b P K L N hP2
      (not_mem_of_zones_or_regions K hK) hL2 hN2]
    simp [hproj]
  refine ⟨?_, ?_⟩
  · simp only [SetVolumeID, hcsi, hd, hh, hm, hx, ite_true, Bool.not_true, Bool.false_eq_true,
      ite_false, newHandle_mkHandle P K L N newID hN2, beq_iff_eq]
  · rw [hh, newHandle_mkHandle P K L N newID hN2]

/-- Witness of C3: the example of the specification,
`projects/p/zones/z/disks/name1` set to `name2`. -/
theorem setVolumeID_same_project_witness :
    SetVolumeID (fun _ => false) { volumeProject := "p".toList }
        { CSI := some { Driver := "pd.csi.storage.gke.io".toList,
                        VolumeHandle := "projects/p/zones/z/disks/name1".toList } }
        "name2".toList =
      .ok { CSI := some { Driver := "pd.csi.storage.gke.io".toList,
                          VolumeHandle := "projects/p/zones/z/disks/name2".toList } } :=
  (setVolumeID_same_project (fun _ => false) { volumeProject := "p".toList }
    { CSI := some { Driver := "pd.csi.storage.gke.io".toList,
                    VolumeHandle := "projects/p/zones/z/disks/name1".toList } }
    { Driver := "pd.csi.storage.gke.io".toList,
      VolumeHandle := "projects/p/zones/z/disks/name1".toList }
    "p".toList "zones".toList "z".toList "name1".toList "name2".toList
    rfl (by decide) (by decide) (by decide) (Or.inl rfl) (by decide) (by decide) (by decide)
    (by decide) (by decide) rfl).1


/-- C5. For a CSI volume with a supported driver, `GetVolumeID` succeeds if
and only if the handle consists of exactly the six segments `projects`, P,
`zones` or `regions`, L, `disks`, N with P, L and N not empty; on success it
returns the sixth segment N, and otherwise the empty ID with an error whose
message contains the driver and the handle. -/
theorem getVolumeID_csi_supported (pv : PersistentVolume) (csi : CSIPersistentVolumeSource)
    (hcsi : pv.CSI = some csi) (hd : pdCSIDriver csi.Driver = true) :
    ((GetVolumeID pv).2 = none ↔ isFixedShape csi.VolumeHandle = true) ∧
    (isFixedShape csi.VolumeHandle = true →
      GetVolumeID pv = ((Split csi.VolumeHandle "/".toList).getD 5 [], none)) ∧
    (isFixedShape csi.VolumeHandle = false →
      ∃ msg, GetVolumeID pv = ([], some msg) ∧ csi.Driver <:+: msg ∧
        csi.VolumeHandle <:+: msg) := by
  have hyes : isFixedShape csi.VolumeHandle = true →
      GetVolumeID pv = ((Split csi.VolumeHandle "/".toList).getD 5 [], none) := by
    intro hs
    have hm := (MatchString_pdVol _).2 ((isFixedShape_iff _).1 hs)
    obtain ⟨P, K, L, N, hP1, hP2, hK, hL1, hL2, hN1, hN2, hh⟩ := (isFixedShape_iff _).1 hs
    have hsp := Split_mkHandle P K L N hP2 (not_mem_of_zones_or_regions K hK) hL2 hN2
    have hsep : "/".toList = ['/'] := rfl
    rw [hsep] at hsp
    rw [hh] at hm ⊢
    simp [GetVolumeID, hcsi, hd, hm, hh, hsp]
  have hno : isFixedShape csi.VolumeHandle = false →
      GetVolumeID pv = ([], some (getHandleError csi.Driver csi.VolumeHandle)) := by
    intro hs
    have hm : pdVolRegexp.MatchString csi.VolumeHandle = false := by
      cases hm : pdVolRegexp.MatchString csi.VolumeHandle with
      | false => rfl
      | true =>
        have := (isFixedShape_iff _).2 ((MatchString_pdVol _).1 hm)
        rw [hs] at this
        exact absurd this (by simp)
    simp [GetVolumeID, hcsi, hd, hm]
  refine ⟨?_, hyes, ?_⟩
  · cases hs : isFixedShape csi.VolumeHandle with
    | true => simp [hyes hs]
    | false => simp [hno hs]
  · intro hs
    refine ⟨_, hno hs, ?_, ?_⟩
    · exact ⟨"invalid volumeHandle for CSI driver:".toList,
        ", expected projects/{project}/zones/{zone}/disks/{name}, got ".toList ++
          csi.VolumeHandle, by simp [getHandleError]⟩
    · exact ⟨"invalid volumeHandle for CSI driver:".toList ++ csi.Driver ++
        ", expected projects/{project}/zones/{zone}/disks/{name}, got ".toList, [],
        by simp [getHandleError]⟩

/-- Witness of C5: the handle of the test case `gke csi driver`, shortened. -/
theorem getVolumeID_csi_supported_witness :
    GetVolumeID { CSI := some { Driver := "pd.csi.storage.gke.io".toList,
                                VolumeHandle := "projects/velero-gcp/zones/z/disks/pvc".toList } }
      = ("pvc".toList, none) :=
  (getVolumeID_csi_supported
    { CSI := some { Driver := "pd.csi.storage.gke.io".toList,
                    VolumeHandle := "projects/velero-gcp/zones/z/disks/pvc".toList } }
    { Driver := "pd.csi.storage.gke.io".toList,
      VolumeHandle := "projects/velero-gcp/zones/z/disks/pvc".toList }
    rfl (by decide)).2.1 (by decide)

/-- C6, as the claim states it, fails: a volume whose CSI block names an
unsupported driver and which also has an in-tree block gets the in-tree disk
name, not the empty ID. -/
theorem getVolumeID_unsupported_counterexample :
    pdCSIDriver "xxx.csi.storage.gke.io".toList = false ∧
    GetVolumeID { CSI := some { Driver := "xxx.csi.storage.gke.io".toList,
                                VolumeHandle := "pvc".toList },
                  GCEPersistentDisk := some { PDName := "abc123".toList } }
      = ("abc123".toList, none) ∧
    ("abc123".toList, (none : Option Str)) ≠ ([], none) := by
  decide

/-- C6, amended. For a volume whose CSI block names a driver outside the
supported set, whatever the handle, `GetVolumeID` ignores the CSI block: it
returns what it returns for the same volume without the CSI block, and so the
empty ID and no error when there is no in-tree block. -/
theorem getVolumeID_unsupported (pv : PersistentVolume) (csi : CSIPersistentVolumeSource)
    (hcsi : pv.CSI = some csi) (hd : pdCSIDriver csi.Driver = false) :
    GetVolumeID pv = GetVolumeID { pv with CSI := none } ∧
    (pv.GCEPersistentDisk = none → GetVolumeID pv = ([], none)) := by
  refine ⟨by simp [GetVolumeID, hcsi, hd], ?_⟩
  intro hg
  simp [GetVolumeID, hcsi, hd, hg]

/-- Witness of C6: the test case `unknown driver`. -/
theorem getVolumeID_unsupported_witness :
    GetVolumeID { CSI := some { Driver := "xxx.csi.storage.gke.io".toList,
                                VolumeHandle := "pvc-a970184f".toList } } = ([], none) :=
  (getVolumeID_unsupported
    { CSI := some { Driver := "xxx.csi.storage.gke.io".toList,
                    VolumeHandle := "pvc-a970184f".toList } }
    { Driver := "xxx.csi.storage.gke.io".toList, VolumeHandle := "pvc-a970184f".toList }
    rfl (by decide)).2 rfl

/-- C7. `SetVolumeID` never silently no-ops. It returns a volume if and only
if the volume has a CSI block with a supported driver and a handle of the
fixed shape, or has no CSI block and has an in-tree block; in every other
case it returns an error and no volume. The volume it returns is updated: in
the CSI case it is the given volume with the handle replaced by the handle
(rewritten to the volume project when it is of another project) cut after its
last `/` and followed by the new ID, so the new handle ends with the new ID;
in the in-tree case it is the given volume with the disk name replaced by the
new ID. -/
theorem setVolumeID_ok_iff (u : Char → Bool) (b : VolumeSnapshotter) (pv : PersistentVolume)
    (volumeID : Str) :
    ((∃ pv2, SetVolumeID u b pv volumeID = .ok pv2) ↔
      ((∃ csi, pv.CSI = some csi ∧ pdCSIDriver csi.Driver = true ∧
          isFixedShape csi.VolumeHandle = true) ∨
        (pv.CSI = none ∧ pv.GCEPersistentDisk ≠ none))) ∧
    ((∃ e, SetVolumeID u b pv volumeID = .error e) ↔
      ¬ ((∃ csi, pv.CSI = some csi ∧ pdCSIDriver csi.Driver = true ∧
          isFixedShape csi.VolumeHandle = true) ∨
        (pv.CSI = none ∧ pv.GCEPersistentDisk ≠ none))) ∧
    (∀ csi, pv.CSI = some csi → pdCSIDriver csi.Driver = true →
      isFixedShape csi.VolumeHandle = true →
      ∃ handle newHandle : Str,
        handle =
          (if IsVolumeCreatedCrossProjects b csi.VolumeHandle = true then
            projectRE.ReplaceAllString u csi.VolumeHandle
              ("projects/".toList ++ b.volumeProject ++ "/".toList)
           else csi.VolumeHandle) ∧
        newHandle = sliceTo handle (LastIndex handle "/".toList + 1) ++ volumeID ∧
        volumeID <:+ newHandle ∧
        SetVolumeID u b pv volumeID =
          .ok { CSI := some { Driver := csi.Driver, VolumeHandle := newHandle,
                              FSType := csi.FSType },
                GCEPersistentDisk := pv.GCEPersistentDisk }) ∧
    (∀ gce, pv.CSI = none → pv.GCEPersistentDisk = some gce →
      SetVolumeID u b pv volumeID =
        .ok { CSI := none,
              GCEPersistentDisk := some { PDName := volumeID, FSType := gce.FSType } }) := by
  have hshape : ∀ h : Str, pdVolRegexp.MatchString h = isFixedShape h := by
    intro h
    apply Bool.eq_iff_iff.2
    rw [MatchString_pdVol, isFixedShape_iff]
  have hiff : ((∃ pv2, SetVolumeID u b pv volumeID = .ok pv2) ↔
      ((∃ csi, pv.CSI = some csi ∧ pdCSIDriver csi.Driver = true ∧
          isFixedShape csi.VolumeHandle = true) ∨
        (pv.CSI = none ∧ pv.GCEPersistentDisk ≠ none))) ∧
    ((∃ e, SetVolumeID u b pv volumeID = .error e) ↔
      ¬ ((∃ csi, pv.CSI = some csi ∧ pdCSIDriver csi.Driver = true ∧
          isFixedShape csi.VolumeHandle = true) ∨
        (pv.CSI = none ∧ pv.GCEPersistentDisk ≠ none))) := by
    cases hc : pv.CSI with
    | some csi =>
      cases hd : pdCSIDriver csi.Driver with
      | false => simp [SetVolumeID, hc, hd]
      | true =>
        cases hs : isFixedShape csi.VolumeHandle with
        | false => simp [SetVolumeID, hc, hd, hshape, hs]
        | true => simp [SetVolumeID, hc, hd, hshape, hs]
    | none =>
      cases hg : pv.GCEPersistentDisk with
      | none => simp [SetVolumeID, hc, hg]
      | some gce => simp [SetVolumeID, hc, hg]
  refine ⟨hiff.1, hiff.2, ?_, ?_⟩
  · intro csi hc hd hs
    refine ⟨_, _, rfl, rfl, ⟨_, rfl⟩, ?_⟩
    have hm : pdVolRegexp.MatchString csi.VolumeHandle = true := by rw [hshape, hs]
    by_cases hx : IsVolumeCreatedCrossProjects b csi.VolumeHandle = true
    · simp only [SetVolumeID, hc, hd, hm, hx, ite_true, Bool.not_true, Bool.false_eq_true,
        ite_false, beq_self_eq_true]
    · have hx2 : IsVolumeCreatedCrossProjects b csi.VolumeHandle = false := by
        simpa using hx
      simp only [SetVolumeID, hc, hd, hm, hx2, ite_true, Bool.not_true, Bool.false_eq_true,
        ite_false, beq_iff_eq]
  · intro gce hc hg
    simp only [SetVolumeID, hc, hg]

/-- C8. For a volume with no CSI block: with an in-tree block `GetVolumeID`
returns its disk name when that is not empty and fails with an error and the
empty ID when it is empty; with no in-tree block either it returns the empty
ID and no error. -/
theorem getVolumeID_no_csi (pv : PersistentVolume) (hcsi : pv.CSI = none) :
    (∀ gce, pv.GCEPersistentDisk = some gce → gce.PDName ≠ [] →
      GetVolumeID pv = (gce.PDName, none)) ∧
    (∀ gce, pv.GCEPersistentDisk = some gce → gce.PDName = [] →
      ∃ e, GetVolumeID pv = ([], some e)) ∧
    (pv.GCEPersistentDisk = none → GetVolumeID pv = ([], none)) := by
  refine ⟨?_, ?_, ?_⟩
  · intro gce hg hn
    simp [GetVolumeID, hcsi, hg, hn]
  · intro gce hg hn
    exact ⟨"spec.gcePersistentDisk.pdName not found".toList,
      by simp [GetVolumeID, hcsi, hg, hn]⟩
  · intro hg
    simp [GetVolumeID, hcsi, hg]

/-- Witness of C8: the valid case of `TestGetVolumeID`. -/
theorem getVolumeID_no_csi_witness :
    GetVolumeID { GCEPersistentDisk := some { PDName := "abc123".toList } }
      = ("abc123".toList, none) :=
  (getVolumeID_no_csi { GCEPersistentDisk := some { PDName := "abc123".toList } } rfl).1
    { PDName := "abc123".toList } rfl (by decide)


/-- C2, the code at a failing input: with volume project `p2`, the handle
`projects/p1/zones/projects/disks/d` of the fixed shape is rewritten at two
places, because the pattern of the rewrite also matches `projects/disks/`;
the result is `projects/p2/zones/projects/p2/n` and not
`projects/p2/zones/projects/disks/n`. -/
theorem setVolumeID_cross_project_failing :
    isFixedShape "projects/p1/zones/projects/disks/d".toList = true ∧
    SetVolumeID (fun _ => false) { volumeProject := "p2".toList }
        { CSI := some { Driver := "pd.csi.storage.gke.io".toList,
                        VolumeHandle := "projects/p1/zones/projects/disks/d".toList } }
        "n".toList =
      .ok { CSI := some { Driver := "pd.csi.storage.gke.io".toList,
                          VolumeHandle := "projects/p2/zones/projects/p2/n".toList } } :=
  ⟨by decide, by rfl⟩

/-- C4, the code at the first case of `TestSetVolumeIDForCSI`: the snapshotter
of the test has no volume project, so the handle counts as created in another
project and its project segment is rewritten to the empty project. The new
handle ends with the volume ID, but its text before the last `/` differs from
the original handle cut at the same position, which the test asserts equal. -/
theorem setVolumeID_test_case_failing :
    SetVolumeID (fun _ => false) {}
        { CSI := some { Driver := "pd.csi.storage.gke.io".toList,
                        VolumeHandle :=
    "projects/velero-gcp/zones/us-central1-f/disks/pvc-a970184f-6cc1-4769-85ad-61dcaf8bf51d".toList,
                        FSType := "ext4".toList } }
        "restore-fd9729b5-868b-4544-9568-1c5d9121dabc".toList =
      .ok { CSI := some { Driver := "pd.csi.storage.gke.io".toList,
                          VolumeHandle :=
    "projects//zones/us-central1-f/disks/restore-fd9729b5-868b-4544-9568-1c5d9121dabc".toList,
                          FSType := "ext4".toList } } ∧
    sliceTo
    "projects/velero-gcp/zones/us-central1-f/disks/pvc-a970184f-6cc1-4769-85ad-61dcaf8bf51d".toList
      (LastIndex
    "projects//zones/us-central1-f/disks/restore-fd9729b5-868b-4544-9568-1c5d9121dabc".toList
        "/".toList) ≠
    sliceTo
    "projects//zones/us-central1-f/disks/restore-fd9729b5-868b-4544-9568-1c5d9121dabc".toList
      (LastIndex
    "projects//zones/us-central1-f/disks/restore-fd9729b5-868b-4544-9568-1c5d9121dabc".toList
        "/".toList) :=
  ⟨by rfl, by decide⟩



/-! ## Lemmas on the rewrite of the project segment -/

theorem expandAux_of_no_dollar (u : Char → Bool) (m t : Str) (h : '$' ∉ t) :
    expandAux u m t 0 = t := by
  induction t with
  | nil => simp [expandAux]
  | cons c t ih =>
    have hc : c ≠ '$' := fun e => h (by simp [e])
    have ht : '$' ∉ t := fun e => h (by simp [e])
    simp [expandAux, hc, ih ht]

/-- A text is cut at its first separator in one way only. -/
theorem append_sep_unique (c : Char) (a a2 b b2 : Str) (ha : c ∉ a) (ha2 : c ∉ a2)
    (h : a ++ c :: b = a2 ++ c :: b2) : a = a2 ∧ b = b2 := by
  induction a generalizing a2 with
  | nil =>
    cases a2 with
    | nil => simpa using h
    | cons x t =>
      simp only [List.nil_append, List.cons_append, List.cons.injEq] at h
      exact absurd (by simp [h.1]) ha2
  | cons x t ih =>
    cases a2 with
    | nil =>
      simp only [List.nil_append, List.cons_append, List.cons.injEq] at h
      exact absurd (by simp [h.1]) ha
    | cons y t2 =>
      simp only [List.cons_append, List.cons.injEq] at h
      obtain ⟨e1, e2⟩ := ih t2 (fun e => ha (by simp [e])) (fun e => ha2 (by simp [e])) h.2
      exact ⟨by rw [h.1, e1], e2⟩

theorem mem_run_projectRE (pos : Nat) (s : Str) (p : Nat × Str) :
    p ∈ projectRE.run pos s ↔
      ∃ a : Str, a ≠ [] ∧ '/' ∉ a ∧ s = "projects".toList ++ '/' :: (a ++ '/' :: p.2) ∧
        p.1 = pos + 10 + a.length := by
  simp only [projectRE, mem_run_cat, mem_run_plusClass, mem_run_str, mem_plusRun, mem_run_chr,
    notSlash_all]
  constructor
  · rintro ⟨q1, ⟨h1, e1⟩, q2, ⟨a, ha1, ha2, h2, e2⟩, h3, e3⟩
    refine ⟨a, ha1, ha2, ?_, ?_⟩
    · rw [h1, h2, h3]; simp
    · rw [e3, e2, e1]; simp; omega
  · rintro ⟨a, ha1, ha2, h1, e1⟩
    refine ⟨(pos + 9, a ++ '/' :: p.2), ⟨by rw [h1]; simp, by simp⟩,
      (pos + 9 + a.length, '/' :: p.2), ⟨a, ha1, ha2, rfl, rfl⟩, rfl, ?_⟩
    rw [e1]; omega

/-- The pattern of the rewrite has one match at the start of a text that
begins with `projects/`, a non-empty segment and a `/`. -/
theorem head_run_projectRE (pos : Nat) (a r : Str) (ha1 : a ≠ []) (ha2 : '/' ∉ a) :
    (projectRE.run pos ("projects".toList ++ '/' :: (a ++ '/' :: r))).head? =
      some (pos + 10 + a.length, r) := by
  have hm : (pos + 10 + a.length, r) ∈
      projectRE.run pos ("projects".toList ++ '/' :: (a ++ '/' :: r)) :=
    (mem_run_projectRE _ _ _).2 ⟨a, ha1, ha2, rfl, rfl⟩
  cases hr : projectRE.run pos ("projects".toList ++ '/' :: (a ++ '/' :: r)) with
  | nil => rw [hr] at hm; simp at hm
  | cons q rest =>
    have hq : q ∈ projectRE.run pos ("projects".toList ++ '/' :: (a ++ '/' :: r)) := by
      rw [hr]; simp
    obtain ⟨a2, -, hb2, hs, he⟩ := (mem_run_projectRE _ _ _).1 hq
    have h1 : a ++ '/' :: r = a2 ++ '/' :: q.2 := by simpa using hs
    obtain ⟨e1, e2⟩ := append_sep_unique '/' a a2 r q.2 ha2 hb2 h1
    simp only [List.head?_cons, Option.some.injEq]
    exact Prod.ext (by rw [he, e1]) e2.symm

theorem replaceAllAux_skip (re : Regexp) (ex : Str → Str) (a r : Str) (pos : Nat) (prev : Bool)
    (ha : a ≠ []) :
    replaceAllAux re ex (a ++ r) pos a.length prev =
      replaceAllAux re ex r (pos + a.length) 0 true := by
  induction a generalizing pos prev with
  | nil => exact absurd rfl ha
  | cons c t ih =>
    cases t with
    | nil => simp [replaceAllAux]
    | cons d t2 =>
      have := ih (pos + 1) true (by simp)
      simp only [List.cons_append, List.length_cons, replaceAllAux] at this ⊢
      rw [this]
      congr 1
      omega

/-- Where the pattern matches at no position, nothing is replaced. -/
theorem replaceAllAux_no_match (re : Regexp) (ex : Str → Str) (s : Str) (pos : Nat)
    (prev : Bool) (h : ∀ pre t q, s = pre ++ t → re.run q t = []) :
    replaceAllAux re ex s pos 0 prev = s := by
  induction s generalizing pos prev with
  | nil => simp [replaceAllAux, h [] [] pos rfl]
  | cons c t ih =>
    have h0 := h [] (c :: t) pos rfl
    have ht : ∀ pre t2 q, t = pre ++ t2 → re.run q t2 = [] := by
      intro pre t2 q e
      exact h (c :: pre) t2 q (by rw [e]; rfl)
    simp [replaceAllAux, h0, ih (pos + 1) false ht]


theorem first_sep (c : Char) (x : Str) :
    c ∉ x ∨ ∃ x1 x2, x = x1 ++ c :: x2 ∧ c ∉ x1 := by
  induction x with
  | nil => left; simp
  | cons d t ih =>
    by_cases hd : d = c
    · right; exact ⟨[], t, by simp [hd], by simp⟩
    · rcases ih with h | ⟨x1, x2, e, h⟩
      · left
        simp only [List.mem_cons, not_or]
        exact ⟨fun e => hd e.symm, h⟩
      · right
        refine ⟨d :: x1, x2, by rw [e]; rfl, ?_⟩
        simp only [List.mem_cons, not_or]
        exact ⟨fun e => hd e.symm, h⟩

/-- Where a later part of a text begins with a segment `w` and a separator,
either the first segment of the text ends with `w`, or that later part lies
after the first separator. -/
theorem sep_suffix_cases (c : Char) (u v pre w z : Str) (hu : c ∉ u) (hw : c ∉ w)
    (h : u ++ c :: v = (pre ++ w) ++ c :: z) :
    (u = pre ++ w ∧ v = z) ∨ ∃ pre2, pre = u ++ c :: pre2 ∧ v = (pre2 ++ w) ++ c :: z := by
  rcases first_sep c pre with hp | ⟨x1, x2, e, hx⟩
  · left
    have hpw : c ∉ pre ++ w := by
      simp only [List.mem_append, not_or]; exact ⟨hp, hw⟩
    exact append_sep_unique c u (pre ++ w) v z hu hpw h
  · right
    have h2 : u ++ c :: v = x1 ++ c :: ((x2 ++ w) ++ c :: z) := by
      rw [h, e]; simp
    obtain ⟨e1, e2⟩ := append_sep_unique c u x1 v _ hu hx h2
    exact ⟨x2, by rw [e, e1], e2⟩

/-- After the project segment of a handle of the fixed shape the pattern of
the rewrite matches nowhere, unless the location ends in `projects`. -/
theorem projectRE_no_match_rest (K L N : Str)
    (hK : K = "zones".toList ∨ K = "regions".toList) (hL2 : '/' ∉ L) (hN2 : '/' ∉ N)
    (hL3 : ¬ "projects".toList <:+ L) (pre t : Str) (q : Nat)
    (h : K ++ '/' :: (L ++ '/' :: ("disks".toList ++ '/' :: N)) = pre ++ t) :
    projectRE.run q t = [] := by
  apply List.eq_nil_iff_forall_not_mem.2
  intro p hp
  obtain ⟨a, -, -, ht, -⟩ := (mem_run_projectRE q t p).1 hp
  have hw : '/' ∉ "projects".toList := by decide
  have h1 : K ++ '/' :: (L ++ '/' :: ("disks".toList ++ '/' :: N)) =
      (pre ++ "projects".toList) ++ '/' :: (a ++ '/' :: p.2) := by
    rw [h, ht]; simp
  rcases sep_suffix_cases '/' K _ pre _ _ (not_mem_of_zones_or_regions K hK) hw h1 with
    ⟨e, -⟩ | ⟨pre2, -, h2⟩
  · have hl := congrArg List.length e
    rcases hK with rfl | rfl <;> simp at hl
  · rcases sep_suffix_cases '/' L _ pre2 _ _ hL2 hw h2 with ⟨e, -⟩ | ⟨pre3, -, h3⟩
    · exact hL3 ⟨pre2, e.symm⟩
    · rcases sep_suffix_cases '/' "disks".toList _ pre3 _ _ (by decide) hw h3 with
        ⟨e, -⟩ | ⟨pre4, -, h4⟩
      · have hl := congrArg List.length e
        simp at hl
      · exact hN2 (by rw [h4]; simp)

/-- The rewrite of the project segment of a handle of the fixed shape, for a
volume project without `$` and a location that does not end in `projects`. -/
theorem ReplaceAllString_mkHandle (u : Char → Bool) (V P K L N : Str) (hV : '$' ∉ V)
    (hP1 : P ≠ []) (hP2 : '/' ∉ P) (hK : K = "zones".toList ∨ K = "regions".toList)
    (hL2 : '/' ∉ L) (hN2 : '/' ∉ N) (hL3 : ¬ "projects".toList <:+ L) :
    projectRE.ReplaceAllString u (mkHandle P K L N) ("projects/".toList ++ V ++ "/".toList) =
      mkHandle V K L N := by
  have e : mkHandle P K L N = 'p' :: (("rojects".toList ++ '/' :: P ++ ['/']) ++
      (K ++ '/' :: (L ++ '/' :: ("disks".toList ++ '/' :: N)))) := by simp [mkHandle]
  have e2 : 'p' :: (("rojects".toList ++ '/' :: P ++ ['/']) ++
      (K ++ '/' :: (L ++ '/' :: ("disks".toList ++ '/' :: N)))) =
      "projects".toList ++ '/' :: (P ++ '/' ::
        (K ++ '/' :: (L ++ '/' :: ("disks".toList ++ '/' :: N)))) := by simp
  have hhead := head_run_projectRE 0 P
    (K ++ '/' :: (L ++ '/' :: ("disks".toList ++ '/' :: N))) hP1 hP2
  rw [← e2] at hhead
  have hex : expandAux u ((('p' :: (("rojects".toList ++ '/' :: P ++ ['/']) ++
      (K ++ '/' :: (L ++ '/' :: ("disks".toList ++ '/' :: N)))))).take (0 + 10 + P.length - 0))
      ("projects/".toList ++ V ++ "/".toList) 0 = "projects/".toList ++ V ++ "/".toList := by
    apply expandAux_of_no_dollar
    simp only [List.mem_append, not_or]
    exact ⟨⟨by decide, hV⟩, by decide⟩
  have hlen : 0 + 10 + P.length - 0 - 1 = ("rojects".toList ++ '/' :: P ++ ['/']).length := by
    simp
    omega
  rw [Regexp.ReplaceAllString, e, replaceAllAux, hhead]
  simp only [show (0 + 10 + P.length = 0) = False by simp, ite_false]
  rw [hex, hlen, replaceAllAux_skip _ _ _ _ _ _ (by simp),
    replaceAllAux_no_match _ _ _ _ _ (projectRE_no_match_rest K L N hK hL2 hN2 hL3)]
  simp [mkHandle]


/-- C1, as the claim states it, fails for the empty volume ID: on an in-tree
volume `SetVolumeID` stores the empty disk name, which `GetVolumeID` reports
as an error; on a CSI volume the new handle ends in `/` and is rejected. -/
theorem volumeID_round_trip_counterexample :
    (SetVolumeID (fun _ => false) {}
        { GCEPersistentDisk := some { PDName := "abc123".toList } } [] =
      .ok { GCEPersistentDisk := some { PDName := [] } }) ∧
    GetVolumeID { GCEPersistentDisk := some { PDName := [] } } =
      ([], some "spec.gcePersistentDisk.pdName not found".toList) ∧
    (SetVolumeID (fun _ => false) { volumeProject := "p".toList }
        { CSI := some { Driver := "pd.csi.storage.gke.io".toList,
                        VolumeHandle := "projects/p/zones/z/disks/d".toList } } [] =
      .ok { CSI := some { Driver := "pd.csi.storage.gke.io".toList,
                          VolumeHandle := "projects/p/zones/z/disks/".toList } }) ∧
    (GetVolumeID { CSI := some { Driver := "pd.csi.storage.gke.io".toList,
                                 VolumeHandle := "projects/p/zones/z/disks/".toList } }).2 ≠
      none :=
  ⟨by rfl, by decide, by rfl, by decide⟩

/-- C1, amended. Round trip for every volume ID that is not empty. On an
in-tree volume (no CSI block) `SetVolumeID` succeeds and `GetVolumeID` of the
result is the ID. On a CSI volume with a supported driver and a handle
`projects/P/K/L/disks/N` of the fixed shape the same holds when the ID has no
`/` and either P is the volume project of the snapshotter, or that volume
project is not empty, has no `/` and no `$`, and L does not end in
`projects`. -/
theorem volumeID_round_trip (u : Char → Bool) (b : VolumeSnapshotter) (pv : PersistentVolume)
    (volumeID : Str) (hid : volumeID ≠ []) :
    (∀ gce, pv.CSI = none → pv.GCEPersistentDisk = some gce →
      ∃ pv2, SetVolumeID u b pv volumeID = .ok pv2 ∧ GetVolumeID pv2 = (volumeID, none)) ∧
    (∀ csi P K L N, pv.CSI = some csi → pdCSIDriver csi.Driver = true →
      csi.VolumeHandle = mkHandle P K L N → P ≠ [] → '/' ∉ P →
      (K = "zones".toList ∨ K = "regions".toList) → L ≠ [] → '/' ∉ L → N ≠ [] → '/' ∉ N →
      '/' ∉ volumeID →
      (P = b.volumeProject ∨
        (b.volumeProject ≠ [] ∧ '/' ∉ b.volumeProject ∧ '$' ∉ b.volumeProject ∧
          ¬ "projects".toList <:+ L)) →
      ∃ pv2, SetVolumeID u b pv volumeID = .ok pv2 ∧ GetVolumeID pv2 = (volumeID, none)) := by
  refine ⟨?_, ?_⟩
  · intro gce hc hg
    refine ⟨{ pv with GCEPersistentDisk := some { gce with PDName := volumeID } },
      by simp only [SetVolumeID, hc, hg], ?_⟩
    simp [GetVolumeID, hc, hid]
  · intro csi P K L N hc hd hh hP1 hP2 hK hL1 hL2 hN1 hN2 hid2 hproj
    have hKs := not_mem_of_zones_or_regions K hK
    have hm : pdVolRegexp.MatchString (mkHandle P K L N) = true :=
      (MatchString_pdVol _).2 (Shape_mkHandle P K L N hP1 hP2 hK hL1 hL2 hN1 hN2)
    have hget : ∀ Q : Str, Q ≠ [] → '/' ∉ Q →
        GetVolumeID { pv with CSI := some { csi with VolumeHandle := mkHandle Q K L volumeID } }
          = (volumeID, none) := by
      intro Q hQ1 hQ2
      have hm2 : pdVolRegexp.MatchString (mkHandle Q K L volumeID) = true :=
        (MatchString_pdVol _).2 (Shape_mkHandle Q K L volumeID hQ1 hQ2 hK hL1 hL2 hid hid2)
      have hsp := Split_mkHandle Q K L volumeID hQ2 hKs hL2 hid2
      have hsep : "/".toList = ['/'] := rfl
      rw [hsep] at hsp
      simp [GetVolumeID, hd, hm2, hsp]
    by_cases hx : P = b.volumeProject
    · have hcross : IsVolumeCreatedCrossProjects b (mkHandle P K L N) = false := by
        rw [IsVolumeCreatedCrossProjects_mkHandle b P K L N hP2 hKs hL2 hN2]
        simp [hx]
      refine ⟨_, ?_, hget P hP1 hP2⟩
      simp only [SetVolumeID, hc, hd, hh, hm, hcross, ite_true, Bool.not_true,
        Bool.false_eq_true, ite_false, newHandle_mkHandle P K L N volumeID hN2, beq_iff_eq]
    · rcases hproj with hp | ⟨hV1, hV2, hV3, hL3⟩
      · exact absurd hp hx
      · have hcross : IsVolumeCreatedCrossProjects b (mkHandle P K L N) = true := by
          rw [IsVolumeCreatedCrossProjects_mkHandle b P K L N hP2 hKs hL2 hN2]
          simp [hx]
        refine ⟨_, ?_, hget b.volumeProject hV1 hV2⟩
        simp only [SetVolumeID, hc, hd, hh, hm, hcross, ite_true, Bool.not_true,
          Bool.false_eq_true, ite_false, beq_self_eq_true,
          ReplaceAllString_mkHandle u b.volumeProject P K L N hV3 hP1 hP2 hK hL2 hN2 hL3,
          newHandle_mkHandle b.volumeProject K L N volumeID hN2]

/-- Witness of C1: a handle of project `p1` restored by a snapshotter of
volume project `p2`. -/
theorem volumeID_round_trip_witness :
    ∃ pv2, SetVolumeID (fun _ => false) { volumeProject := "p2".toList }
        { CSI := some { Driver := "pd.csi.storage.gke.io".toList,
                        VolumeHandle := "projects/p1/zones/z/disks/d".toList } }
        "n".toList = .ok pv2 ∧ GetVolumeID pv2 = ("n".toList, none) :=
  (volumeID_round_trip (fun _ => false) { volumeProject := "p2".toList }
    { CSI := some { Driver := "pd.csi.storage.gke.io".toList,
                    VolumeHandle := "projects/p1/zones/z/disks/d".toList } }
    "n".toList (by decide)).2
    { Driver := "pd.csi.storage.gke.io".toList,
      VolumeHandle := "projects/p1/zones/z/disks/d".toList }
    "p1".toList "zones".toList "z".toList "d".toList rfl (by decide) rfl (by decide)
    (by decide) (Or.inl rfl) (by decide) (by decide) (by decide) (by decide) (by decide)
    (Or.inr ⟨by decide, by decide, by decide, by decide⟩)

/-! ## Lemmas on the JSON encoding -/

theorem hexVal_hexDigit : ∀ n, n < 16 → hexVal (hexDigit n) = some n := by decide

theorem getu4_low (n : Nat) (h : n < 64) (t : Str) :
    getu4 ('0' :: '0' :: hexDigit (n / 16) :: hexDigit (n % 16) :: t) = some (n, t) := by
  have h1 := hexVal_hexDigit (n / 16) (by omega)
  have h2 := hexVal_hexDigit (n % 16) (by omega)
  have h0 : hexVal '0' = some 0 := by decide
  simp only [getu4, h0, h1, h2]
  congr 2
  omega

theorem decodeU_of_lt (r : Nat) (rest : Str) (h : r < 0xD800) :
    decodeU r rest = (Char.ofNat r, rest) := by
  unfold decodeU
  rw [if_neg (by omega)]

/-- One step of the string scanner reads back one encoded character. -/
theorem parseString_encodeChar (n : Nat) (c : Char) (t : Str) :
    parseString (n + 1) (encodeChar c ++ t) =
      (parseString n t).map fun q => (c :: q.1, q.2) := by
  unfold encodeChar
  split
  · rename_i h
    simp only [Bool.or_eq_true, beq_iff_eq] at h
    rcases h with rfl | rfl <;> simp [parseString, simpleEscape]
  · rename_i h0
    simp only [Bool.or_eq_true, beq_iff_eq, not_or] at h0
    obtain ⟨hq, hb⟩ := h0
    split
    · rename_i h; simp only [beq_iff_eq] at h; subst h; simp [parseString, simpleEscape]
    · split
      · rename_i h; simp only [beq_iff_eq] at h; subst h; simp [parseString, simpleEscape]
      · split
        · rename_i h; simp only [beq_iff_eq] at h; subst h; simp [parseString, simpleEscape]
        · split
          · rename_i h; simp only [beq_iff_eq] at h; subst h; simp [parseString, simpleEscape]
          · split
            · rename_i h; simp only [beq_iff_eq] at h; subst h
              simp [parseString, simpleEscape]
            · split
              · rename_i h
                have hlt : c.toNat < 64 := by
                  simp only [Bool.or_eq_true, decide_eq_true_eq, beq_iff_eq] at h
                  rcases h with ((h | rfl) | rfl) | rfl
                  · omega
                  · decide
                  · decide
                  · decide
                have hg := getu4_low c.toNat hlt t
                have hu := decodeU_of_lt c.toNat t (by omega)
                simp [parseString, hg, hu, Char.ofNat_toNat]
              · rename_i h1 h2 h3 h4 h5 h6
                simp only [Bool.or_eq_true, decide_eq_true_eq, beq_iff_eq, not_or, not_lt] at h6
                split
                · rename_i h; simp only [beq_iff_eq] at h; subst h
                  have hg : getu4 ('2' :: '0' :: '2' :: '8' :: t) = some (0x2028, t) := rfl
                  have hu := decodeU_of_lt 0x2028 t (by omega)
                  simp [parseString, hg, hu]
                · split
                  · rename_i h; simp only [beq_iff_eq] at h; subst h
                    have hg : getu4 ('2' :: '0' :: '2' :: '9' :: t) = some (0x2029, t) := rfl
                    have hu := decodeU_of_lt 0x2029 t (by omega)
                    simp [parseString, hg, hu]
                  · have hlt : ¬ c.toNat < 32 := by omega
                    simp [parseString, hq, hb, hlt]

theorem encodeChar_length_pos (c : Char) : 1 ≤ (encodeChar c).length := by
  unfold encodeChar
  repeat' split
  all_goals simp

theorem length_le_flatMap_encodeChar (s : Str) : s.length ≤ (s.flatMap encodeChar).length := by
  induction s with
  | nil => simp
  | cons c t ih =>
    have := encodeChar_length_pos c
    simp only [List.flatMap_cons, List.length_append, List.length_cons]
    omega

/-- The string scanner reads back an encoded string. -/
theorem parseString_encode (s t : Str) (n : Nat) (hn : s.length + 1 ≤ n) :
    parseString n (s.flatMap encodeChar ++ '"' :: t) = some (s, t) := by
  induction s generalizing n with
  | nil =>
    obtain ⟨m, rfl⟩ : ∃ m, n = m + 1 := ⟨n - 1, by simp at hn; omega⟩
    simp [parseString]
  | cons c r ih =>
    obtain ⟨m, rfl⟩ : ∃ m, n = m + 1 := ⟨n - 1, by simp at hn; omega⟩
    rw [List.flatMap_cons, List.append_assoc, parseString_encodeChar,
      ih m (by simp at hn ⊢; omega)]
    rfl

theorem parseString_encodeString (s t : Str) :
    parseString ((s.flatMap encodeChar ++ '"' :: t).length + 1)
      (s.flatMap encodeChar ++ '"' :: t) = some (s, t) := by
  apply parseString_encode
  have := length_le_flatMap_encodeChar s
  simp only [List.length_append, List.length_cons]
  omega

theorem parseValue_encodeString (n depth : Nat) (s t : Str) :
    parseValue (n + 1) depth (encodeString s ++ t) = some (JKind.str s, t) := by
  have e : encodeString s ++ t = '"' :: (s.flatMap encodeChar ++ '"' :: t) := by
    simp [encodeString]
  rw [e, parseValue]
  simp only [beq_self_eq_true, ite_true, parseString_encodeString]
  rfl

theorem skipSpace_cons (c : Char) (t : Str) (h : isSpace c = false) :
    skipSpace (c :: t) = c :: t := by
  simp [skipSpace, List.dropWhile, h]

theorem intercalate_cons_cons (a b : Str) (l : List Str) :
    (",".toList).intercalate (a :: b :: l) = a ++ ',' :: (",".toList).intercalate (b :: l) := by
  simp [List.intercalate, List.intersperse]

theorem encodeEntry_append (p : Str × Str) (t : Str) :
    encodeEntry p ++ t =
      '"' :: (p.1.flatMap encodeChar ++ '"' :: ':' :: (encodeString p.2 ++ t)) := by
  simp [encodeEntry, encodeString]

/-- The scanner reads back the members of a marshalled object. -/
theorem parseMembers_encode (e : Str × Str) (es : TagMap) (n depth : Nat) (r : Str)
    (hn : (e :: es).length + 1 ≤ n) :
    parseMembers n depth ((",".toList).intercalate ((e :: es).map encodeEntry) ++ '}' :: r) =
      some ((e :: es).map fun p => (p.1, JKind.str p.2), r) := by
  induction es generalizing e n with
  | nil =>
    obtain ⟨m, rfl⟩ : ∃ m, n = m + 2 := ⟨n - 2, by simp at hn; omega⟩
    have e1 : (",".toList).intercalate ([e].map encodeEntry) ++ '}' :: r =
        '"' :: (e.1.flatMap encodeChar ++ '"' :: ':' :: (encodeString e.2 ++ '}' :: r)) := by
      rw [← encodeEntry_append]; simp [List.intercalate, List.intersperse]
    rw [e1, parseMembers]
    simp only [beq_self_eq_true, ite_true, parseString_encodeString]
    rw [skipSpace_cons _ _ (by decide)]
    simp only [beq_self_eq_true, ite_true]
    have e2 : skipSpace (encodeString e.2 ++ '}' :: r) = encodeString e.2 ++ '}' :: r := by
      simp only [encodeString, List.cons_append]
      exact skipSpace_cons _ _ (by decide)
    rw [e2, parseValue_encodeString]
    dsimp only
    rw [skipSpace_cons _ _ (by decide)]
    simp
  | cons e2 es ih =>
    obtain ⟨m, rfl⟩ : ∃ m, n = m + 2 := ⟨n - 2, by simp at hn; omega⟩
    have e1 : (",".toList).intercalate ((e :: e2 :: es).map encodeEntry) ++ '}' :: r =
        '"' :: (e.1.flatMap encodeChar ++ '"' :: ':' :: (encodeString e.2 ++ ',' ::
          ((",".toList).intercalate ((e2 :: es).map encodeEntry) ++ '}' :: r))) := by
      rw [← encodeEntry_append, List.map_cons, List.map_cons, intercalate_cons_cons]
      simp
    have e3 : skipSpace ((",".toList).intercalate ((e2 :: es).map encodeEntry) ++ '}' :: r) =
        (",".toList).intercalate ((e2 :: es).map encodeEntry) ++ '}' :: r := by
      cases es with
      | nil =>
        simp only [List.map_cons, List.map_nil, List.intercalate, List.intersperse,
          List.flatten, List.append_nil, encodeEntry, encodeString, List.cons_append]
        exact skipSpace_cons _ _ (by decide)
      | cons e4 es2 =>
        rw [List.map_cons, List.map_cons, intercalate_cons_cons]
        simp only [encodeEntry, encodeString, List.cons_append]
        exact skipSpace_cons _ _ (by decide)
    rw [e1, parseMembers]
    simp only [beq_self_eq_true, ite_true, parseString_encodeString]
    rw [skipSpace_cons _ _ (by decide)]
    simp only [beq_self_eq_true, ite_true]
    have e2s : ∀ t, skipSpace (encodeString e.2 ++ t) = encodeString e.2 ++ t := by
      intro t
      simp only [encodeString, List.cons_append]
      exact skipSpace_cons _ _ (by decide)
    rw [e2s, parseValue_encodeString]
    dsimp only
    rw [skipSpace_cons _ _ (by decide)]
    simp only [show ((',' : Char) == '}') = false by decide, Bool.false_eq_true, ite_false,
      beq_self_eq_true, ite_true]
    rw [e3, ih e2 (m + 1) (by simp at hn ⊢; omega)]
    simp

/-! ## Lemmas on maps -/

theorem mapGet_nil (k : Str) : mapGet (some []) k = none := rfl

theorem mapGet_cons (p : Str × Str) (l : TagMap) (k : Str) :
    mapGet (some (p :: l)) k = if p.1 = k then some p.2 else mapGet (some l) k := by
  by_cases h : p.1 = k
  · simp [mapGet, List.find?, h]
  · have hb : (p.1 == k) = false := by simpa using h
    simp [mapGet, List.find?, hb, h]

theorem mapGet_eq_none_iff (l : TagMap) (k : Str) :
    mapGet (some l) k = none ↔ k ∉ l.map Prod.fst := by
  induction l with
  | nil => simp [mapGet_nil]
  | cons p t ih =>
    rw [mapGet_cons]
    by_cases h : p.1 = k
    · simp [h]
    · simp only [h, ite_false, ih, List.map_cons, List.mem_cons, not_or]
      exact ⟨fun h2 => ⟨fun e => h e.symm, h2⟩, fun h2 => h2.2⟩

theorem mapGet_eq_some_iff (l : TagMap) (k v : Str) (hnd : (l.map Prod.fst).Nodup) :
    mapGet (some l) k = some v ↔ (k, v) ∈ l := by
  induction l with
  | nil => simp [mapGet_nil]
  | cons p t ih =>
    simp only [List.map_cons, List.nodup_cons] at hnd
    obtain ⟨hp, ht⟩ := hnd
    rw [mapGet_cons, List.mem_cons]
    by_cases h : p.1 = k
    · simp only [h, ite_true, Option.some.injEq]
      constructor
      · intro e; left; exact Prod.ext h.symm e.symm
      · rintro (e | e)
        · rw [← e]
        · exact absurd (List.mem_map_of_mem Prod.fst e) (by simpa [h] using hp)
    · simp only [h, ite_false, ih ht]
      constructor
      · intro e; right; exact e
      · rintro (e | e)
        · exact absurd (by rw [← e]) h
        · exact e

/-- Maps with the same entries in another order have the same values. -/
theorem mapGet_perm (l1 l2 : TagMap) (k : Str) (hp : l1.Perm l2)
    (hnd : (l1.map Prod.fst).Nodup) : mapGet (some l1) k = mapGet (some l2) k := by
  have hnd2 : (l2.map Prod.fst).Nodup := (hp.map Prod.fst).nodup_iff.1 hnd
  apply Option.ext
  intro v
  simp only [Option.mem_def]
  rw [mapGet_eq_some_iff l1 k v hnd, mapGet_eq_some_iff l2 k v hnd2]
  exact hp.mem_iff

theorem mapSet_of_not_mem (m : TagMap) (k v : Str) (h : k ∉ m.map Prod.fst) :
    mapSet m k v = m ++ [(k, v)] := by
  have : m.any (fun p => p.1 == k) = false := by
    rw [Bool.eq_false_iff]
    intro ha
    simp only [List.any_eq_true, beq_iff_eq] at ha
    obtain ⟨p, hp, e⟩ := ha
    exact h (e ▸ List.mem_map_of_mem Prod.fst hp)
  simp [mapSet, this]

theorem keys_mapSet_of_mem (m : TagMap) (k v : Str) (h : k ∈ m.map Prod.fst) :
    (mapSet m k v).map Prod.fst = m.map Prod.fst := by
  have : m.any (fun p => p.1 == k) = true := by
    simp only [List.any_eq_true, beq_iff_eq]
    obtain ⟨p, hp, e⟩ := List.mem_map.1 h
    exact ⟨p, hp, e⟩
  simp only [mapSet, this, ite_true, List.map_map]
  apply List.map_congr_left
  intro p _
  by_cases e : p.1 = k <;> simp [e]

theorem nodup_keys_mapSet (m : TagMap) (k v : Str) (h : (m.map Prod.fst).Nodup) :
    ((mapSet m k v).map Prod.fst).Nodup := by
  by_cases hk : k ∈ m.map Prod.fst
  · rw [keys_mapSet_of_mem m k v hk]; exact h
  · rw [mapSet_of_not_mem m k v hk, List.map_append]
    simp only [List.map_cons, List.map_nil]
    exact List.Nodup.append h (by simp) (by simpa using hk)

theorem mapGet_map_update (m : TagMap) (k v k2 : Str) :
    mapGet (some (m.map fun p => if p.1 == k then (k, v) else p)) k2 =
      if k = k2 then (if k ∈ m.map Prod.fst then some v else none)
      else mapGet (some m) k2 := by
  induction m with
  | nil => simp [mapGet_nil]
  | cons p t ih =>
    rw [List.map_cons, mapGet_cons, mapGet_cons, ih]
    by_cases e : p.1 = k
    · by_cases e2 : k = k2
      · simp [e, e2]
      · have : ¬ p.1 = k2 := fun h => e2 (e ▸ h)
        simp [e, e2, this]
    · by_cases e2 : k = k2
      · have h1 : ¬ p.1 = k2 := fun h => e (h.trans e2.symm)
        have h2 : ¬ k2 = p.1 := fun h => h1 h.symm
        subst e2
        simp only [h1, ite_false, ite_true, List.map_cons]
        have h3 : (k ∈ p.1 :: t.map Prod.fst) ↔ k ∈ t.map Prod.fst := by
          simp only [List.mem_cons, h2, false_or]
        by_cases hm : k ∈ t.map Prod.fst
        · rw [if_pos hm, if_pos (h3.2 hm)]
          simp [h1]
        · rw [if_neg hm, if_neg (fun h => hm (h3.1 h))]
          simp [h1]
      · simp [e, e2]

theorem mapGet_mapSet (m : TagMap) (k v k2 : Str) :
    mapGet (some (mapSet m k v)) k2 = if k = k2 then some v else mapGet (some m) k2 := by
  by_cases hk : k ∈ m.map Prod.fst
  · have hany : m.any (fun p => p.1 == k) = true := by
      simp only [List.any_eq_true, beq_iff_eq]
      obtain ⟨p, hp, e⟩ := List.mem_map.1 hk
      exact ⟨p, hp, e⟩
    simp only [mapSet, hany, ite_true, mapGet_map_update, hk]
  · rw [mapSet_of_not_mem m k v hk]
    induction m with
    | nil => simp [mapGet_cons, mapGet_nil]
    | cons p t ih =>
      have hk2 : k ∉ t.map Prod.fst := fun h => hk (by simp [h])
      have hpk : p.1 ≠ k := fun h => hk (by simp [h])
      rw [List.cons_append, mapGet_cons, mapGet_cons, ih hk2]
      by_cases e2 : p.1 = k2
      · have : ¬ k = k2 := fun h => hpk (h ▸ e2)
        simp [e2, this]
      · simp [e2]

/-- The values of a map after the entries of another were assigned to it. -/
theorem mapGet_foldl_mapSet (l m : TagMap) (k : Str) (hnd : (l.map Prod.fst).Nodup) :
    mapGet (some (l.foldl (fun acc p => mapSet acc p.1 p.2) m)) k =
      mergedGet (some l) (some m) k := by
  induction l generalizing m with
  | nil => simp [mergedGet, mapGet_nil]
  | cons p t ih =>
    simp only [List.map_cons, List.nodup_cons] at hnd
    obtain ⟨hp, ht⟩ := hnd
    rw [List.foldl_cons, ih _ ht]
    simp only [mergedGet, mapGet_cons, mapGet_mapSet]
    by_cases e : p.1 = k
    · have : mapGet (some t) k = none := (mapGet_eq_none_iff t k).2 (e ▸ hp)
      simp [e, this]
    · simp [e]

theorem nodup_keys_foldl_mapSet (l m : TagMap) (h : (m.map Prod.fst).Nodup) :
    ((l.foldl (fun acc p => mapSet acc p.1 p.2) m).map Prod.fst).Nodup := by
  induction l generalizing m with
  | nil => exact h
  | cons p t ih => exact ih _ (nodup_keys_mapSet m p.1 p.2 h)

theorem foldl_mapSet_eq_append (l m : TagMap) (hnd : ((m ++ l).map Prod.fst).Nodup) :
    l.foldl (fun acc p => mapSet acc p.1 p.2) m = m ++ l := by
  induction l generalizing m with
  | nil => simp
  | cons p t ih =>
    have hp : p.1 ∉ m.map Prod.fst := by
      intro hm
      rw [List.map_append, List.map_cons] at hnd
      exact (List.nodup_append.1 hnd).2.2 hm (by simp)
    rw [List.foldl_cons, mapSet_of_not_mem m p.1 p.2 hp, ih _ (by simpa using hnd)]
    simp

theorem nodup_keys_storeMembers (ms : List (Str × JKind)) (m : TagMap) (err : Option JSONError)
    (h : (m.map Prod.fst).Nodup) : (((storeMembers ms m err).1).map Prod.fst).Nodup := by
  induction ms generalizing m err with
  | nil => exact h
  | cons p t ih =>
    obtain ⟨k, v⟩ := p
    cases v with
    | str s => exact ih _ _ (nodup_keys_mapSet m k s h)
    | null => exact ih _ _ (nodup_keys_mapSet m k [] h)
    | other => exact ih _ _ (nodup_keys_mapSet m k [] h)

theorem storeMembers_strings (l m : TagMap) :
    storeMembers (l.map fun p => (p.1, JKind.str p.2)) m none =
      (l.foldl (fun acc p => mapSet acc p.1 p.2) m, none) := by
  induction l generalizing m with
  | nil => rfl
  | cons p t ih => simp only [List.map_cons, storeMembers, List.foldl_cons, ih]

/-- A decoded map has distinct keys. -/
theorem nodup_keys_Unmarshal (d : Str) (D : TagMap) (e : Option JSONError)
    (h : Unmarshal d none = (some D, e)) : (D.map Prod.fst).Nodup := by
  unfold Unmarshal at h
  split at h
  · simp at h
  · simp at h
  · simp at h
  · rename_i members _
    simp only [Option.getD_none, Prod.mk.injEq, Option.some.injEq] at h
    rw [← h.1]
    exact nodup_keys_storeMembers members [] none (by simp)

theorem sortEntries_perm (l : TagMap) : (sortEntries l).Perm l :=
  List.perm_insertionSort _ l

theorem nodup_keys_sortEntries (l : TagMap) (h : (l.map Prod.fst).Nodup) :
    ((sortEntries l).map Prod.fst).Nodup :=
  (((sortEntries_perm l).map Prod.fst).nodup_iff).2 h

theorem sortEntries_ne_nil (l : TagMap) (h : l ≠ []) : sortEntries l ≠ [] := by
  intro e
  have := (sortEntries_perm l).length_eq
  rw [e] at this
  exact h (List.length_eq_zero.1 this.symm)

theorem length_le_intercalate (xs : List Str) (h : ∀ x ∈ xs, 1 ≤ x.length) :
    xs.length ≤ ((",".toList).intercalate xs).length := by
  induction xs with
  | nil => simp
  | cons a t ih =>
    cases t with
    | nil =>
      have := h a (by simp)
      simpa [List.intercalate, List.intersperse] using this
    | cons b t2 =>
      have := ih (fun x hx => h x (List.mem_cons_of_mem _ hx))
      rw [intercalate_cons_cons]
      simp only [List.length_append, List.length_cons] at this ⊢
      omega

theorem parseObject_quote (n depth : Nat) (t : Str) :
    parseObject (n + 1) depth ('"' :: t) = parseMembers n depth ('"' :: t) := by
  simp [parseObject]

theorem intercalate_entries_head (e : Str × Str) (es : TagMap) (r : Str) :
    ∃ t, (",".toList).intercalate ((e :: es).map encodeEntry) ++ r = '"' :: t := by
  cases es with
  | nil =>
    refine ⟨e.1.flatMap encodeChar ++ '"' :: ':' :: (encodeString e.2 ++ r), ?_⟩
    rw [← encodeEntry_append]
    simp [List.intercalate, List.intersperse]
  | cons e2 es2 =>
    rw [List.map_cons, List.map_cons, intercalate_cons_cons, List.append_assoc,
      encodeEntry_append]
    exact ⟨_, rfl⟩

/-- Decoding what `json.Marshal` writes for a map that is not empty gives the
entries of the map in the order of their keys. -/
theorem Unmarshal_Marshal (l : TagMap) (h : l ≠ []) (hnd : (l.map Prod.fst).Nodup) :
    ∃ out, Marshal (some l) = .ok out ∧ Unmarshal out none = (some (sortEntries l), none) := by
  refine ⟨_, rfl, ?_⟩
  obtain ⟨e, es, hs⟩ : ∃ e es, sortEntries l = e :: es := by
    cases hl : sortEntries l with
    | nil => exact absurd hl (sortEntries_ne_nil l h)
    | cons e es => exact ⟨e, es, rfl⟩
  have hnd2 := nodup_keys_sortEntries l hnd
  rw [hs] at hnd2 ⊢
  have hbody : ∀ r, skipSpace ((",".toList).intercalate ((e :: es).map encodeEntry) ++ r) =
      (",".toList).intercalate ((e :: es).map encodeEntry) ++ r := by
    intro r
    cases es with
    | nil =>
      simp only [List.map_cons, List.map_nil, List.intercalate, List.intersperse,
        List.flatten, List.append_nil, encodeEntry, encodeString, List.cons_append]
      exact skipSpace_cons _ _ (by decide)
    | cons e4 es2 =>
      rw [List.map_cons, List.map_cons, intercalate_cons_cons]
      simp only [encodeEntry, encodeString, List.cons_append]
      exact skipSpace_cons _ _ (by decide)
  have hlen : (e :: es).length + 1 ≤
      3 * (((",".toList).intercalate ((e :: es).map encodeEntry) ++ ['}']).length + 1) + 2 := by
    have := length_le_intercalate ((e :: es).map encodeEntry) (by
      intro x hx
      obtain ⟨p, -, rfl⟩ := List.mem_map.1 hx
      simp [encodeEntry, encodeString])
    simp only [List.length_map] at this
    simp only [List.length_append]
    omega
  obtain ⟨t, ht⟩ := intercalate_entries_head e es ['}']
  have hpm := parseMembers_encode e es
    (3 * (((",".toList).intercalate ((e :: es).map encodeEntry) ++ ['}']).length + 1) + 2)
    1 [] hlen
  have hst : storeMembers ((e :: es).map fun p => (p.1, JKind.str p.2)) [] none =
      (e :: es, none) := by
    rw [storeMembers_strings, foldl_mapSet_eq_append _ _ (by simpa using hnd2)]
    simp
  have htop : parseTop ('{' :: ((",".toList).intercalate ((e :: es).map encodeEntry) ++ ['}'])) =
      some (JTop.obj ((e :: es).map fun p => (p.1, JKind.str p.2))) := by
    unfold parseTop
    rw [skipSpace_cons _ _ (by decide)]
    simp only [beq_self_eq_true, ite_true, hbody, List.length_cons]
    rw [ht, parseObject_quote, ← ht, hpm]
    simp [skipSpace]
  simp only [Unmarshal, htop, Option.getD_none, hst]

theorem mapGet_none_eq (k : Str) : mapGet none k = mapGet (some []) k := rfl

theorem mergedGet_nil_right (T : GoMap) (k : Str) : mergedGet T (some []) k = mapGet T k := by
  unfold mergedGet
  cases mapGet T k <;> simp [mapGet_nil]

/-- The map that `getSnapshotTags` encodes, for a description that is empty
or decodes without error to a map that is not `nil`. -/
theorem getSnapshotTags_final (T : GoMap) (d : Str) (D : TagMap)
    (hT : ((T.getD []).map Prod.fst).Nodup)
    (hd : (d = [] ∧ D = []) ∨ (d ≠ [] ∧ Unmarshal d none = (some D, none))) :
    ∃ X : TagMap, (X.map Prod.fst).Nodup ∧
      (∀ k, mapGet (some X) k = mergedGet T (some D) k) ∧
      getSnapshotTags T d =
        (if X = [] then some []
         else match Marshal (some X) with
           | .error _ => some []
           | .ok tagsJSON => some tagsJSON) := by
  rcases hd with ⟨rfl, rfl⟩ | ⟨hne, hu⟩
  · refine ⟨T.getD [], hT, ?_, ?_⟩
    · intro k
      rw [mergedGet_nil_right]
      cases T <;> rfl
    · cases T with
      | none => simp [getSnapshotTags, mapLen]
      | some l =>
        cases l with
        | nil => simp [getSnapshotTags, mapLen]
        | cons p t => simp [getSnapshotTags, mapLen, Marshal]
  · have hD := nodup_keys_Unmarshal d D none hu
    refine ⟨(T.getD []).foldl (fun acc p => mapSet acc p.1 p.2) D,
      nodup_keys_foldl_mapSet _ _ hD, ?_, ?_⟩
    · intro k
      rw [mapGet_foldl_mapSet _ _ _ hT]
      cases T <;> rfl
    · have hr : rangeAssign T (some D) =
          some (some ((T.getD []).foldl (fun acc p => mapSet acc p.1 p.2) D)) := by
        unfold rangeAssign
        cases hl : T.getD [] with
        | nil => rfl
        | cons e es => rfl
      simp only [getSnapshotTags, hne, ne_eq, not_false_eq_true, ite_true, hu, hr, mapLen,
        List.length_eq_zero]

theorem mapGet_all_none_iff (X : TagMap) : (∀ k, mapGet (some X) k = none) ↔ X = [] := by
  constructor
  · intro h
    cases X with
    | nil => rfl
    | cons p t =>
      have := h p.1
      rw [mapGet_cons] at this
      simp at this
  · rintro rfl k
    rfl

/-- C9. Tag merge equals its reference definition: for new tags `T` and a
disk description that is empty (`D` empty) or decodes without error as the
JSON object `D`, let the merged map have the value of `T` where the key is in
`T` and else that of `D`. `getSnapshotTags` returns the empty string when
the merged map is empty, and otherwise a JSON text whose decoding is exactly
the merged map. -/
theorem getSnapshotTags_merge (T : GoMap) (d : Str) (D : TagMap)
    (hT : ((T.getD []).map Prod.fst).Nodup)
    (hd : (d = [] ∧ D = []) ∨ (d ≠ [] ∧ Unmarshal d none = (some D, none))) :
    ∃ out, getSnapshotTags T d = some out ∧
      ((∀ k, mergedGet T (some D) k = none) → out = []) ∧
      ((∃ k, mergedGet T (some D) k ≠ none) →
        ∃ M, Unmarshal out none = (some M, none) ∧
          ∀ k, mapGet (some M) k = mergedGet T (some D) k) := by
  obtain ⟨X, hX, hget, hout⟩ := getSnapshotTags_final T d D hT hd
  by_cases hx : X = []
  · refine ⟨[], by rw [hout, if_pos hx], fun _ => rfl, ?_⟩
    rintro ⟨k, hk⟩
    rw [← hget k, hx] at hk
    exact absurd rfl hk
  · obtain ⟨out, hm, hu⟩ := Unmarshal_Marshal X hx hX
    refine ⟨out, by rw [hout, if_neg hx, hm], ?_, ?_⟩
    · intro hall
      exact absurd ((mapGet_all_none_iff X).1 fun k => (hget k).trans (hall k)) hx
    · intro _
      refine ⟨sortEntries X, hu, fun k => ?_⟩
      rw [mapGet_perm _ _ k (sortEntries_perm X) (nodup_keys_sortEntries X hX), hget k]

/-- Witness of C9: the test case `when tags overlap, velero tags take
precedence`, with shorter names. -/
theorem getSnapshotTags_merge_witness :
    ∃ out, getSnapshotTags (some [("v".toList, "new".toList), ("o".toList, "new".toList)])
        "\x7b\"g\":\"old\",\"o\":\"old\"\x7d".toList = some out ∧
      ((∀ k, mergedGet (some [("v".toList, "new".toList), ("o".toList, "new".toList)])
          (some [("g".toList, "old".toList), ("o".toList, "old".toList)]) k = none) →
        out = []) ∧
      ((∃ k, mergedGet (some [("v".toList, "new".toList), ("o".toList, "new".toList)])
          (some [("g".toList, "old".toList), ("o".toList, "old".toList)]) k ≠ none) →
        ∃ M, Unmarshal out none = (some M, none) ∧
          ∀ k, mapGet (some M) k =
            mergedGet (some [("v".toList, "new".toList), ("o".toList, "new".toList)])
              (some [("g".toList, "old".toList), ("o".toList, "old".toList)]) k) :=
  getSnapshotTags_merge (some [("v".toList, "new".toList), ("o".toList, "new".toList)])
    "\x7b\"g\":\"old\",\"o\":\"old\"\x7d".toList
    [("g".toList, "old".toList), ("o".toList, "old".toList)]
    (by decide) (Or.inr ⟨by decide, by decide⟩)

/-- C10. Graceful degradation: for a disk description that is not empty and
fails to decode, and any new tags `T`, `getSnapshotTags` returns what it
returns for the empty description: whatever was decoded before the failure
is dropped, and the result is the encoding of `T` alone, the empty string
when `T` is empty; the run does not abort. -/
theorem getSnapshotTags_undecodable (T : GoMap) (d : Str) (e : JSONError) (hd : d ≠ [])
    (herr : (Unmarshal d none).2 = some e) :
    getSnapshotTags T d = getSnapshotTags T [] ∧
    getSnapshotTags T d =
      some (if mapLen T = 0 then []
        else match Marshal T with
          | .error _ => []
          | .ok tagsJSON => tagsJSON) := by
  have h1 : getSnapshotTags T d = getSnapshotTags T [] := by
    cases hu : Unmarshal d none with
    | mk m err =>
      rw [hu] at herr
      simp only at herr
      subst herr
      simp [getSnapshotTags, hd, hu]
  refine ⟨h1, ?_⟩
  rw [h1]
  simp only [getSnapshotTags, ne_eq, not_true_eq_false, ite_false]
  split
  · rfl
  · cases T with
    | none => rfl
    | some l => rfl

/-- Witness of C10: the test case of the invalid description, and an object
with a value that is not a string, of which the entry `a` was decoded before
the failure. -/
theorem getSnapshotTags_undecodable_witness :
    getSnapshotTags (some [("velero-key".toList, "velero-val".toList)])
        "THIS IS INVALID JSON".toList = some "\x7b\"velero-key\":\"velero-val\"\x7d".toList ∧
    Unmarshal "\x7b\"a\":\"b\",\"c\":1\x7d".toList none =
      (some [("a".toList, "b".toList), ("c".toList, [])], some .unmarshalTypeError) ∧
    getSnapshotTags (some [("velero-key".toList, "velero-val".toList)])
        "\x7b\"a\":\"b\",\"c\":1\x7d".toList = some "\x7b\"velero-key\":\"velero-val\"\x7d".toList :=
  ⟨(getSnapshotTags_undecodable (some [("velero-key".toList, "velero-val".toList)])
      "THIS IS INVALID JSON".toList .syntaxError (by decide) (by decide)).2,
    by decide,
    (getSnapshotTags_undecodable (some [("velero-key".toList, "velero-val".toList)])
      "\x7b\"a\":\"b\",\"c\":1\x7d".toList .unmarshalTypeError (by decide) (by decide)).2⟩

/-! ## The claims on the name of a snapshot -/

/-- C11. Snapshot naming under the length limit: for every volume ID and
every suffix of length at most 63 the name built in `CreateSnapshot` is the
first `min(len(volumeID), 63 - len(suffix))` characters of the volume ID
followed by the whole suffix; its length is `min(len(volumeID) + len(suffix),
63)`, which is at most 63; it ends with the suffix; and what comes before the
suffix is a beginning of the volume ID. -/
theorem snapshotName_spec (volumeID suffix : Str) (hs : suffix.length ≤ 63) :
    ∃ name, snapshotName volumeID suffix = some name ∧
      name = volumeID.take (min volumeID.length (63 - suffix.length)) ++ suffix ∧
      name.length = min (volumeID.length + suffix.length) 63 ∧
      name.length ≤ 63 ∧
      suffix <:+ name ∧
      volumeID.take (min volumeID.length (63 - suffix.length)) <+: volumeID := by
  have hname : snapshotName volumeID suffix =
      some (volumeID.take (min volumeID.length (63 - suffix.length)) ++ suffix) := by
    unfold snapshotName
    by_cases h : (volumeID.length : Int) ≤ 63 - (suffix.length : Int)
    · have h2 : volumeID.length ≤ 63 - suffix.length := by omega
      rw [if_pos h, Nat.min_eq_left h2, List.take_length]
    · have h2 : ¬ volumeID.length ≤ 63 - suffix.length := by omega
      have h3 : ¬ (63 - (suffix.length : Int) < 0) := by omega
      have h4 : (63 - (suffix.length : Int)).toNat = 63 - suffix.length := by omega
      rw [if_neg h, if_neg h3, h4, Nat.min_eq_right (by omega)]
  refine ⟨_, hname, rfl, ?_, ?_, ⟨_, rfl⟩, List.take_prefix _ _⟩
  · simp only [List.length_append, List.length_take]
    omega
  · simp only [List.length_append, List.length_take]
    omega

/-- Witness of C11: a volume ID of 70 characters with a suffix of 5. -/
theorem snapshotName_spec_witness :
    ∃ name, snapshotName (List.replicate 70 'a') "-1234".toList = some name ∧
      name = (List.replicate 70 'a').take
        (min (List.replicate 70 'a').length (63 - "-1234".toList.length)) ++ "-1234".toList ∧
      name.length = min ((List.replicate 70 'a').length + "-1234".toList.length) 63 ∧
      name.length ≤ 63 ∧
      "-1234".toList <:+ name ∧
      (List.replicate 70 'a').take
        (min (List.replicate 70 'a').length (63 - "-1234".toList.length)) <+:
          List.replicate 70 'a' :=
  snapshotName_spec (List.replicate 70 'a') "-1234".toList (by decide)

theorem isLabelChar_of_isLowerHex (c : Char) (h : isLowerHex c = true) :
    isLowerLetter c = true ∨ isDigit c = true := by
  simp only [isLowerHex, Bool.or_eq_true, decide_eq_true_eq] at h
  rcases h with h | ⟨h1, h2⟩
  · exact Or.inr h
  · left
    simp only [isLowerLetter, decide_eq_true_eq]
    exact ⟨h1, le_trans h2 (by decide)⟩

/-- C19. RFC 1035 names: for a volume ID that is an RFC 1035 label and a
suffix `-` followed by the canonical string of a UUID, the snapshot name
built by `CreateSnapshot`, truncated or not, is an RFC 1035 label of 1 to 63
characters. -/
theorem snapshotName_rfc1035 (volumeID u : Str) (hv : isRFC1035Label volumeID = true)
    (hu : isCanonicalUUID u = true) :
    ∃ name, snapshotName volumeID ('-' :: u) = some name ∧ isRFC1035Label name = true ∧
      1 ≤ name.length ∧ name.length ≤ 63 := by
  simp only [isCanonicalUUID, Bool.and_eq_true, beq_iff_eq, List.all_eq_true,
    Bool.or_eq_true] at hu
  obtain ⟨⟨⟨hlen, hall⟩, -⟩, hlast⟩ := hu
  simp only [isRFC1035Label, Bool.and_eq_true, List.all_eq_true] at hv
  obtain ⟨⟨hhead, hvall⟩, -⟩ := hv
  obtain ⟨name, hname, heq, hl, hle, -, -⟩ :=
    snapshotName_spec volumeID ('-' :: u) (by simp [hlen])
  refine ⟨name, hname, ?_, ?_, hle⟩
  · obtain ⟨c, t, rfl⟩ : ∃ c t, volumeID = c :: t := by
      cases volumeID with
      | nil => simp at hhead
      | cons c t => exact ⟨c, t, rfl⟩
    have hk : min (c :: t).length (63 - ('-' :: u).length) =
        (min t.length (63 - ('-' :: u).length - 1)) + 1 := by
      simp only [List.length_cons, hlen]
      omega
    rw [hk, List.take_succ_cons] at heq
    simp only [List.head?_cons] at hhead
    obtain ⟨l, hl2⟩ : ∃ l, u.getLast? = some l := by
      cases hg : u.getLast? with
      | none => rw [hg] at hlast; simp at hlast
      | some l => exact ⟨l, rfl⟩
    rw [hl2] at hlast
    have hnl : name.getLast? = some l := by
      obtain ⟨ys, hys⟩ := List.getLast?_eq_some_iff.1 hl2
      have e : name = (c :: List.take (min t.length (63 - ('-' :: u).length - 1)) t ++
          '-' :: ys) ++ [l] := by
        rw [heq, hys]; simp
      rw [e, List.getLast?_concat]
    simp only [isRFC1035Label, Bool.and_eq_true, List.all_eq_true, Bool.or_eq_true, hnl]
    refine ⟨⟨?_, ?_⟩, ?_⟩
    · rw [heq]; simpa using hhead
    · intro x hx
      rw [heq] at hx
      simp only [List.cons_append, List.mem_cons, List.mem_append] at hx
      rcases hx with rfl | hx | rfl | hx
      · exact hvall x (by simp)
      · exact hvall x (List.mem_cons_of_mem _ (List.mem_of_mem_take hx))
      · decide
      · rcases hall x hx with h | h
        · rcases isLabelChar_of_isLowerHex x h with h2 | h2 <;> simp [isLabelChar, h2]
        · simp [isLabelChar, h]
    · exact isLabelChar_of_isLowerHex l (by simpa using hlast)
  · rw [hl]
    simp only [List.length_cons, hlen]
    omega

/-- Witness of C19: a volume ID of 40 characters, which is truncated. -/
theorem snapshotName_rfc1035_witness :
    ∃ name, snapshotName ("pvc-".toList ++ List.replicate 36 'a')
        ('-' :: "fd9729b5-868b-4544-9568-1c5d9121dabc".toList) = some name ∧
      isRFC1035Label name = true ∧ 1 ≤ name.length ∧ name.length ≤ 63 :=
  snapshotName_rfc1035 ("pvc-".toList ++ List.replicate 36 'a')
    "fd9729b5-868b-4544-9568-1c5d9121dabc".toList (by decide) (by decide)

/-! ## Lemmas on `parseRegion` -/

theorem cutAfter_char_none (c : Char) (a : Str) (h : c ∉ a) : cutAfter [c] a = none := by
  induction a with
  | nil => rfl
  | cons d t ih =>
    have hd : c ≠ d := fun e => h (by simp [e])
    have ht : c ∉ t := fun e => h (by simp [e])
    simp [cutAfter, List.isPrefixOf, hd, ih ht]

theorem cutAfter_char_append (c : Char) (a b : Str) (h : c ∉ a) :
    cutAfter [c] (a ++ c :: b) = some (a ++ [c], b) := by
  induction a with
  | nil => simp [cutAfter, List.isPrefixOf]
  | cons d t ih =>
    have hd : c ≠ d := fun e => h (by simp [e])
    have ht : c ∉ t := fun e => h (by simp [e])
    simp [cutAfter, List.isPrefixOf, hd, ih ht]

theorem HasSuffix_char_false (c : Char) (b : Str) (h : c ∉ b) : HasSuffix b [c] = false := by
  unfold HasSuffix
  cases hr : b.reverse with
  | nil => simp [List.isPrefixOf]
  | cons d t =>
    have hd : d ∈ b := by
      have : d ∈ b.reverse := by rw [hr]; simp
      simpa using this
    have : c ≠ d := fun e => h (e ▸ hd)
    simp [List.isPrefixOf, this]

theorem TrimSuffix_char_of_not_mem (c : Char) (b : Str) (h : c ∉ b) :
    TrimSuffix b [c] = b := by
  simp [TrimSuffix, HasSuffix_char_false c b h]

theorem TrimSuffix_append_char (c : Char) (b : Str) : TrimSuffix (b ++ [c]) [c] = b := by
  have : HasSuffix (b ++ [c]) [c] = true := by
    simp [HasSuffix, List.isPrefixOf]
  simp [TrimSuffix, this]

/-- The pieces of a zone without a dash: the zone alone. -/
theorem SplitAfterN_no_dash (zone : Str) (h : '-' ∉ zone) :
    SplitAfterN zone "-".toList 3 = [zone] := by
  have hsep : "-".toList = ['-'] := rfl
  rw [SplitAfterN, hsep, if_neg (by decide)]
  cases hk : min 3 (zone.length + 1) - 1 with
  | zero => rfl
  | succ k => simp [splitAfterLoop, cutAfter_char_none '-' zone h]

/-- The pieces of a zone with a dash: the text up to the first dash, and what
follows, cut once more after its first dash when it has one. -/
theorem SplitAfterN_dash (a b : Str) (ha : '-' ∉ a) :
    SplitAfterN (a ++ '-' :: b) "-".toList 3 =
      (a ++ ['-']) :: (match cutAfter ['-'] b with
        | none => [b]
        | some (x, y) => [x, y]) := by
  have hsep : "-".toList = ['-'] := rfl
  rw [SplitAfterN, hsep, if_neg (by decide)]
  by_cases hl : (a ++ '-' :: b).length = 1
  · have hb : b = [] := by
      simp only [List.length_append, List.length_cons] at hl
      exact List.length_eq_zero.1 (by omega)
    have hk : min 3 ((a ++ '-' :: b).length + 1) - 1 = 1 := by rw [hl]; rfl
    rw [hk, splitAfterLoop, cutAfter_char_append '-' a b ha, hb]
    rfl
  · have hk : min 3 ((a ++ '-' :: b).length + 1) - 1 = 2 := by
      simp only [List.length_append, List.length_cons] at hl ⊢
      omega
    rw [hk, splitAfterLoop, cutAfter_char_append '-' a b ha]
    simp only [splitAfterLoop]

/-- What `parseRegion` returns in terms of the first zone. -/
theorem parseRegion_of_firstZone (tbl : Char → Bool) (tag : Str) :
    ('-' ∉ firstZone tag → parseRegion tbl tag = ([], some (parseRegionError tbl tag))) ∧
    (∀ a b, firstZone tag = a ++ '-' :: b → '-' ∉ a → '-' ∉ b →
      parseRegion tbl tag = (a ++ '-' :: b, none)) ∧
    (∀ a b c, firstZone tag = a ++ '-' :: (b ++ '-' :: c) → '-' ∉ a → '-' ∉ b →
      parseRegion tbl tag = (a ++ '-' :: b, none)) := by
  have hdef : parseRegion tbl tag =
      (if (SplitAfterN (firstZone tag) "-".toList 3).length < 2 then
        ([], some (parseRegionError tbl tag))
      else ((SplitAfterN (firstZone tag) "-".toList 3).getD 0 [] ++
        TrimSuffix ((SplitAfterN (firstZone tag) "-".toList 3).getD 1 []) "-".toList, none)) :=
    rfl
  have hsep : "-".toList = ['-'] := rfl
  refine ⟨?_, ?_, ?_⟩
  · intro h
    rw [hdef, SplitAfterN_no_dash (firstZone tag) h]
    simp
  · intro a b hz ha hb
    have hs := SplitAfterN_dash a b ha
    rw [cutAfter_char_none '-' b hb, ← hz] at hs
    rw [hdef, hs, hsep]
    simp [TrimSuffix_char_of_not_mem '-' b hb]
  · intro a b c hz ha hb
    have hs := SplitAfterN_dash a (b ++ '-' :: c) ha
    rw [cutAfter_char_append '-' b c hb, ← hz] at hs
    rw [hdef, hs, hsep]
    simp [TrimSuffix_append_char '-' b]

theorem splitAux_sep2_of_not_mem (a : Str) (h : '_' ∉ a) :
    splitAux ['_', '_'] a 0 = [a] := by
  induction a with
  | nil => simp [splitAux]
  | cons d t ih =>
    have hd : '_' ≠ d := fun e => h (List.mem_cons.2 (Or.inl e))
    have ht : '_' ∉ t := fun e => h (by simp [e])
    simp [splitAux, List.isPrefixOf, hd, ih ht]

theorem splitAux_sep2_append (a r : Str) (h : '_' ∉ a) :
    splitAux ['_', '_'] (a ++ '_' :: '_' :: r) 0 = a :: splitAux ['_', '_'] r 0 := by
  induction a with
  | nil => simp [splitAux, List.isPrefixOf]
  | cons d t ih =>
    have hd : '_' ≠ d := fun e => h (List.mem_cons.2 (Or.inl e))
    have ht : '_' ∉ t := fun e => h (by simp [e])
    simp [splitAux, List.isPrefixOf, hd, ih ht]

theorem cutAfter_sep2_none (a : Str) (h : '_' ∉ a) : cutAfter ['_', '_'] a = none := by
  induction a with
  | nil => rfl
  | cons d t ih =>
    have hd : '_' ≠ d := fun e => h (List.mem_cons.2 (Or.inl e))
    have ht : '_' ∉ t := fun e => h (by simp [e])
    simp [cutAfter, List.isPrefixOf, hd, ih ht]

theorem cutAfter_sep2_append (a r : Str) (h : '_' ∉ a) :
    cutAfter ['_', '_'] (a ++ '_' :: '_' :: r) = some (a ++ ['_', '_'], r) := by
  induction a with
  | nil => simp [cutAfter, List.isPrefixOf]
  | cons d t ih =>
    have hd : '_' ≠ d := fun e => h (List.mem_cons.2 (Or.inl e))
    have ht : '_' ∉ t := fun e => h (by simp [e])
    simp [cutAfter, List.isPrefixOf, hd, ih ht]

theorem firstZone_of_not_mem (a : Str) (h : '_' ∉ a) : firstZone a = a := by
  have hsep : zoneSeparator = ['_', '_'] := rfl
  simp [firstZone, Split, hsep, splitAux_sep2_of_not_mem a h]

theorem firstZone_append (a r : Str) (h : '_' ∉ a) :
    firstZone (a ++ '_' :: '_' :: r) = a := by
  have hsep : zoneSeparator = ['_', '_'] := rfl
  simp [firstZone, Split, hsep, splitAux_sep2_append a r h]

theorem isMultiZone_of_not_mem (a : Str) (h : '_' ∉ a) : isMultiZone a = false := by
  have hsep : zoneSeparator = ['_', '_'] := rfl
  simp [isMultiZone, Contains, hsep, cutAfter_sep2_none a h]

theorem isMultiZone_append (a r : Str) (h : '_' ∉ a) :
    isMultiZone (a ++ '_' :: '_' :: r) = true := by
  have hsep : zoneSeparator = ['_', '_'] := rfl
  simp [isMultiZone, Contains, hsep, cutAfter_sep2_append a r h]

theorem mkZoneTag_single (A B C : Str) : mkZoneTag A B [C] = A ++ '-' :: (B ++ '-' :: C) := by
  simp [mkZoneTag, List.intercalate, List.intersperse]

theorem mkZoneTag_cons_cons (A B C C2 : Str) (Cs : List Str) :
    mkZoneTag A B (C :: C2 :: Cs) =
      (A ++ '-' :: (B ++ '-' :: C)) ++ '_' :: '_' :: mkZoneTag A B (C2 :: Cs) := by
  have hsep : zoneSeparator = ['_', '_'] := rfl
  simp [mkZoneTag, List.intercalate, List.intersperse, hsep]

/-- C12. For every tag made of `n` zones `A-B-C1`, ..., `A-B-Cn` (`n` at
least 1) joined by the separator `__`, where `A` and `B` have no `-` and `A`,
`B` and each `Ci` have no `_`, `parseRegion` returns the region `A-B` with no
error, whatever `n` is, and `isMultiZone` is true exactly when `n` is at
least 2. -/
theorem parseRegion_shared_region (tbl : Char → Bool) (A B : Str) (Cs : List Str)
    (hn : Cs ≠ []) (hA1 : '-' ∉ A) (hA2 : '_' ∉ A) (hB1 : '-' ∉ B) (hB2 : '_' ∉ B)
    (hC : ∀ C ∈ Cs, '_' ∉ C) :
    parseRegion tbl (mkZoneTag A B Cs) = (A ++ '-' :: B, none) ∧
    (isMultiZone (mkZoneTag A B Cs) = true ↔ 2 ≤ Cs.length) := by
  have hz : ∀ C ∈ Cs, '_' ∉ A ++ '-' :: (B ++ '-' :: C) := by
    intro C hCm
    simp only [List.mem_append, List.mem_cons, not_or]
    exact ⟨hA2, by decide, hB2, by decide, hC C hCm⟩
  cases Cs with
  | nil => exact absurd rfl hn
  | cons C rest =>
    have h1 := hz C (by simp)
    cases rest with
    | nil =>
      rw [mkZoneTag_single]
      refine ⟨?_, ?_⟩
      · exact (parseRegion_of_firstZone tbl _).2.2 A B C (firstZone_of_not_mem _ h1) hA1 hB1
      · simp [isMultiZone_of_not_mem _ h1]
    | cons C2 rest2 =>
      rw [mkZoneTag_cons_cons]
      refine ⟨?_, ?_⟩
      · exact (parseRegion_of_firstZone tbl _).2.2 A B C (firstZone_append _ _ h1) hA1 hB1
      · rw [isMultiZone_append _ _ h1]
        simp

/-- Witness of C12: the tag of four zones of `TestRegionHelpers`. -/
theorem parseRegion_shared_region_witness :
    parseRegion (fun _ => true)
        "us-central1-a__us-central1-b__us-central1-f__us-central1-e".toList =
      ("us-central1".toList, none) ∧
    (isMultiZone "us-central1-a__us-central1-b__us-central1-f__us-central1-e".toList = true ↔
      2 ≤ ["a".toList, "b".toList, "f".toList, "e".toList].length) :=
  parseRegion_shared_region (fun _ => true) "us".toList "central1".toList
    ["a".toList, "b".toList, "f".toList, "e".toList]
    (by decide) (by decide) (by decide) (by decide) (by decide) (by decide)

theorem appendEscapedRune_plain (tbl : Char → Bool) (c : Char)
    (h1 : 0x20 ≤ c.toNat) (h2 : c.toNat ≤ 0x7E) (h3 : c ≠ '"') (h4 : c ≠ '\\') :
    appendEscapedRune tbl c = [c] := by
  have hp : IsPrint tbl c = true := by
    have : c.toNat ≤ 0xFF := by omega
    simp [IsPrint, this, h1, h2]
  simp [appendEscapedRune, h3, h4, hp]

/-- The verb `%q` on printable ASCII text without `"` and `\`: the text
between double quotes. -/
theorem Quote_plain (tbl : Char → Bool) (s : Str)
    (h : ∀ c ∈ s, 0x20 ≤ c.toNat ∧ c.toNat ≤ 0x7E ∧ c ≠ '"' ∧ c ≠ '\\') :
    Quote tbl s = '"' :: (s ++ ['"']) := by
  have hf : s.flatMap (appendEscapedRune tbl) = s := by
    induction s with
    | nil => rfl
    | cons c t ih =>
      obtain ⟨h1, h2, h3, h4⟩ := h c (by simp)
      rw [List.flatMap_cons, appendEscapedRune_plain tbl c h1 h2 h3 h4,
        ih (fun d hd => h d (List.mem_cons_of_mem _ hd))]
      rfl
  rw [Quote, hf]

/-- C13, as the claim states it, fails for a tag with a double quote: the
message holds the tag as `%q` formats it, with the quote escaped, and not the
tag as it is between double quotes. -/
theorem parseRegion_error_counterexample :
    '-' ∉ firstZone ['a', '"'] ∧
    parseRegion (fun _ => true) ['a', '"'] =
      ([], some ("failed to parse region from zone: ".toList ++ ['"', 'a', '\\', '"', '"'])) ∧
    "failed to parse region from zone: ".toList ++ ['"', 'a', '\\', '"', '"'] ≠
      "failed to parse region from zone: ".toList ++ '"' :: (['a', '"'] ++ ['"']) := by
  decide

/-- C13, amended. For every tag whose first zone contains no `-`, in
single-zone and in multi-zone form alike, `parseRegion` returns the empty
region and an error whose message is `failed to parse region from zone: `
followed by the whole tag as the verb `%q` formats it; that is the tag between
double quotes when the tag is printable ASCII text without `"` and `\`. -/
theorem parseRegion_error (tbl : Char → Bool) (tag : Str) (h : '-' ∉ firstZone tag) :
    parseRegion tbl tag =
      ([], some ("failed to parse region from zone: ".toList ++ Quote tbl tag)) ∧
    ((∀ c ∈ tag, 0x20 ≤ c.toNat ∧ c.toNat ≤ 0x7E ∧ c ≠ '"' ∧ c ≠ '\\') →
      parseRegion tbl tag =
        ([], some ("failed to parse region from zone: ".toList ++ '"' :: (tag ++ ['"'])))) := by
  have h1 := (parseRegion_of_firstZone tbl tag).1 h
  refine ⟨h1, fun hp => ?_⟩
  rw [h1, parseRegionError, Quote_plain tbl tag hp]

/-- Witness of C13: the invalid multi-zone tag of `TestRegionHelpers`. -/
theorem parseRegion_error_witness :
    parseRegion (fun _ => true) "us^central1^a__us^central1^b".toList =
      ([], some ("failed to parse region from zone: ".toList ++
        '"' :: ("us^central1^a__us^central1^b".toList ++ ['"']))) :=
  (parseRegion_error (fun _ => true) "us^central1^a__us^central1^b".toList (by decide)).2
    (by decide)

/-- C14, as the claim states it, fails: a zone with a single dash, one with
more than two dashes and one with empty parts are not of the canonical shape,
and `parseRegion` returns a region for each and no error. -/
theorem parseRegion_guess_counterexample :
    parseRegion (fun _ => true) "us-central1".toList = ("us-central1".toList, none) ∧
    parseRegion (fun _ => true) "a-b-c-d".toList = ("a-b".toList, none) ∧
    parseRegion (fun _ => true) "--a".toList = ("-".toList, none) := by
  decide

/-- C14, amended. `parseRegion` returns an error, and then the empty region,
exactly when the first zone of the tag contains no `-`. For a first zone with
one dash it returns that zone, and for a first zone with two dashes or more
the text before the second dash; the parts between the dashes may be empty. -/
theorem parseRegion_error_iff (tbl : Char → Bool) (tag : Str) :
    ((parseRegion tbl tag).2 ≠ none ↔ '-' ∉ firstZone tag) ∧
    ((parseRegion tbl tag).2 ≠ none → (parseRegion tbl tag).1 = []) ∧
    (∀ a b, firstZone tag = a ++ '-' :: b → '-' ∉ a → '-' ∉ b →
      parseRegion tbl tag = (a ++ '-' :: b, none)) ∧
    (∀ a b c, firstZone tag = a ++ '-' :: (b ++ '-' :: c) → '-' ∉ a → '-' ∉ b →
      parseRegion tbl tag = (a ++ '-' :: b, none)) := by
  obtain ⟨h1, h2, h3⟩ := parseRegion_of_firstZone tbl tag
  have hok : '-' ∈ firstZone tag → (parseRegion tbl tag).2 = none := by
    intro hm
    rcases first_sep '-' (firstZone tag) with hn | ⟨a, b, e, ha⟩
    · exact absurd hm hn
    · rcases first_sep '-' b with hb | ⟨b1, c, e2, hb1⟩
      · rw [h2 a b e ha hb]
      · rw [h3 a b1 c (by rw [e, e2]) ha hb1]
  refine ⟨⟨?_, ?_⟩, ?_, h2, h3⟩
  · intro he hm
    exact he (hok hm)
  · intro hn
    rw [h1 hn]
    simp
  · intro he
    by_cases hm : '-' ∈ firstZone tag
    · exact absurd (hok hm) he
    · rw [h1 hm]

/-! ## The claims on the calls to the provider -/

theorem snapshotsQuotaReached_eq (quotas : List Quota) :
    snapshotsQuotaReached quotas = quotaExhausted quotas := by
  induction quotas with
  | nil => rfl
  | cons q rest ih =>
    by_cases hm : q.Metric = "SNAPSHOTS".toList
    · by_cases hu : q.Usage = q.Limit <;>
        simp [snapshotsQuotaReached, quotaExhausted, List.find?, hm, hu]
    · have hb : (q.Metric == "SNAPSHOTS".toList) = false := by simpa using hm
      rw [snapshotsQuotaReached, if_neg hm, ih]
      simp only [quotaExhausted, List.find?, hb]

theorem createSnapshot_ne_quotaError (b : VolumeSnapshotter) (gce : Provider)
    (name volumeID volumeAZ : Str) (tags : GoMap) :
    (createSnapshot b gce name volumeID volumeAZ tags).1 ≠ some ([], some quotaError) := by
  unfold createSnapshot
  split
  · simp [quotaError]
  · split
    · simp
    · dsimp only
      split <;> simp [quotaError]

theorem createRegionSnapshot_ne_quotaError (b : VolumeSnapshotter) (gce : Provider)
    (name volumeID volumeRegion : Str) (tags : GoMap) :
    (createRegionSnapshot b gce name volumeID volumeRegion tags).1 ≠
      some ([], some quotaError) := by
  unfold createRegionSnapshot
  split
  · simp [quotaError]
  · split
    · simp
    · dsimp only
      split <;> simp [quotaError]

theorem parseRegion_error_eq (tbl : Char → Bool) (tag e : Str)
    (h : (parseRegion tbl tag).2 = some e) : e = parseRegionError tbl tag := by
  unfold parseRegion at h
  simp only at h
  split at h
  · simpa using h.symm
  · simp at h

theorem parseRegionError_ne_quota (tbl : Char → Bool) (tag : Str) :
    parseRegionError tbl tag ≠
      "snapshots quota on Google Cloud Platform has been reached".toList := by
  intro h
  have := congrArg List.head? h
  simp [parseRegionError] at this

/-- The part of `CreateSnapshot` after the quota gate never returns the error
of the gate. -/
theorem CreateSnapshot_quota_iff_aux (b : VolumeSnapshotter) (gce : Provider)
    (tbl : Char → Bool) (uid volumeID volumeAZ : Str) (tags : GoMap) (p : Project)
    (hp : gce.projectsGet b.volumeProject = .ok p) :
    (snapshotsQuotaReached p.Quotas = true →
      CreateSnapshot b gce tbl (.ok uid) volumeID volumeAZ tags =
        (some ([], some quotaError), [.projectsGet b.volumeProject])) ∧
    (snapshotsQuotaReached p.Quotas = false →
      (CreateSnapshot b gce tbl (.ok uid) volumeID volumeAZ tags).1 ≠
        some ([], some quotaError)) := by
  refine ⟨?_, ?_⟩
  · intro hq
    simp only [CreateSnapshot, hp, hq, ite_true]
  · intro hq
    simp only [CreateSnapshot, hp, hq, Bool.false_eq_true, ite_false]
    cases snapshotName volumeID ('-' :: uid) with
    | none => simp
    | some name =>
      cases isMultiZone volumeAZ with
      | false =>
        simp only [Bool.false_eq_true, ite_false]
        exact createSnapshot_ne_quotaError b gce name volumeID volumeAZ tags
      | true =>
        simp only [ite_true]
        cases hr : parseRegion tbl volumeAZ with
        | mk region err =>
          cases err with
          | none =>
            simp only
            exact createRegionSnapshot_ne_quotaError b gce name volumeID region tags
          | some e =>
            have he := parseRegion_error_eq tbl volumeAZ e (by rw [hr])
            simp only [quotaError, ne_eq, Option.some.injEq, Prod.mk.injEq, true_and,
              GoError.withStack.injEq, GoError.text.injEq]
            rw [he]
            exact parseRegionError_ne_quota tbl volumeAZ

/-- C15. Quota gating: with the provider as a record of the calls issued,
`CreateSnapshot` (its identifier generated) returns the snapshots-quota error
exactly when the project was read and the first entry of its quota list with
metric `SNAPSHOTS` has usage equal to limit; whenever it does so the only call
issued is the read of the project, so no disk read and no snapshot insert;
and when there is no such entry or its usage differs from its limit, the call
goes on as for a project without quotas. -/
theorem createSnapshot_quota_gate (b : VolumeSnapshotter) (gce : Provider)
    (tbl : Char → Bool) (uid volumeID volumeAZ : Str) (tags : GoMap) :
    ((CreateSnapshot b gce tbl (.ok uid) volumeID volumeAZ tags).1 =
        some ([], some quotaError) ↔
      ∃ p, gce.projectsGet b.volumeProject = .ok p ∧ quotaExhausted p.Quotas = true) ∧
    ((CreateSnapshot b gce tbl (.ok uid) volumeID volumeAZ tags).1 =
        some ([], some quotaError) →
      (CreateSnapshot b gce tbl (.ok uid) volumeID volumeAZ tags).2 =
        [.projectsGet b.volumeProject]) ∧
    (∀ p, gce.projectsGet b.volumeProject = .ok p → quotaExhausted p.Quotas = false →
      CreateSnapshot b gce tbl (.ok uid) volumeID volumeAZ tags =
        CreateSnapshot b { gce with projectsGet := fun _ => .ok { Quotas := [] } } tbl
          (.ok uid) volumeID volumeAZ tags) := by
  cases hp : gce.projectsGet b.volumeProject with
  | error err =>
    have hr : CreateSnapshot b gce tbl (.ok uid) volumeID volumeAZ tags =
        (some ([], some (.withStack (.provider err))), [.projectsGet b.volumeProject]) := by
      simp only [CreateSnapshot, hp]
    refine ⟨⟨?_, ?_⟩, ?_, ?_⟩
    · intro h
      rw [hr] at h
      simp [quotaError] at h
    · rintro ⟨p, h, -⟩
      cases h
    · intro _
      rw [hr]
    · intro p h
      cases h
  | ok p =>
    obtain ⟨h1, h2⟩ := CreateSnapshot_quota_iff_aux b gce tbl uid volumeID volumeAZ tags p hp
    rw [snapshotsQuotaReached_eq] at h1 h2
    cases hq : quotaExhausted p.Quotas with
    | true =>
      refine ⟨⟨fun _ => ⟨p, rfl, hq⟩, fun _ => by rw [h1 hq]⟩, fun _ => by rw [h1 hq], ?_⟩
      intro p2 e hq2
      cases e
      rw [hq] at hq2
      cases hq2
    | false =>
      refine ⟨⟨fun h => absurd h (h2 hq), ?_⟩, fun h => absurd h (h2 hq), ?_⟩
      · rintro ⟨p2, e, hq2⟩
        cases e
        rw [hq] at hq2
        cases hq2
      · intro p2 e _
        cases e
        have hs : snapshotsQuotaReached p.Quotas = false := by
          rw [snapshotsQuotaReached_eq]; exact hq
        simp only [CreateSnapshot, hp, hs, snapshotsQuotaReached, Bool.false_eq_true, ite_false]
        rfl

/-- C16. Idempotent delete: for every answer of the provider to the delete
call, `DeleteSnapshot` returns no error when the call succeeds or fails with
an API error of code 404, and for every other failure an error that carries
the error of the provider. -/
theorem deleteSnapshot_idempotent (b : VolumeSnapshotter) (gce : Provider) (snapshotID : Str) :
    (gce.snapshotsDelete b.snapshotProject snapshotID = none →
      (DeleteSnapshot b gce snapshotID).1 = none) ∧
    (∀ message, gce.snapshotsDelete b.snapshotProject snapshotID = some (.api 404 message) →
      (DeleteSnapshot b gce snapshotID).1 = none) ∧
    (∀ e, gce.snapshotsDelete b.snapshotProject snapshotID = some e →
      (∀ message, e ≠ .api 404 message) →
      (DeleteSnapshot b gce snapshotID).1 = some (.withStack (.provider e))) ∧
    (DeleteSnapshot b gce snapshotID).2 = [.snapshotsDelete b.snapshotProject snapshotID] := by
  refine ⟨?_, ?_, ?_, ?_⟩
  · intro h
    simp [DeleteSnapshot, h]
  · intro message h
    simp [DeleteSnapshot, h]
  · intro e h hne
    cases e with
    | other m => simp [DeleteSnapshot, h]
    | api code m =>
      have hc : code ≠ 404 := fun hc => hne m (by rw [hc])
      simp [DeleteSnapshot, h, hc]
  · unfold DeleteSnapshot
    dsimp only
    split
    · split <;> rfl
    · rfl
    · rfl

/-! ## The claims on initialization -/

/-- C17, as the claim states it, fails: the configured value `archive` is
neither empty nor `STANDARD` nor `ARCHIVE`, and initialization succeeds with
the snapshot type `ARCHIVE`, because the value is compared in upper case. -/
theorem init_snapshotType_counterexample :
    "archive".toList ≠ [] ∧ "archive".toList ≠ "STANDARD".toList ∧
    "archive".toList ≠ "ARCHIVE".toList ∧
    Init id (fun _ => true) (some [(snapshotTypeKey, "archive".toList)]) none
        (.ok { ProjectID := "c1".toList }) none =
      .ok { snapshotLocation := [], volumeProject := "c1".toList,
            snapshotProject := "c1".toList, snapshotType := "ARCHIVE".toList } :=
  ⟨by decide, by decide, by decide, by rfl⟩

/-- C17, amended. Snapshot class validation, on the upper-case form `t` of the
configured `snapshotType` value: after a successful initialization the
snapshot type is `STANDARD` when `t` is empty (value unset or empty) and `t`
when `t` is `STANDARD` or `ARCHIVE`, so always one of the two; for every
other `t`, once the keys are valid and the credentials found, initialization
fails with the unsupported-snapshot-type error that names `t`; and with the
keys valid, the credentials found and the service made, initialization
succeeds for the three accepted forms. -/
theorem init_snapshotType (up : Char → Char) (tbl : Char → Bool) (config : GoMap)
    (validateKeys : Option GoError) (credentials : Except GoError Credentials)
    (newService : Option GoError) :
    (∀ b, Init up tbl config validateKeys credentials newService = .ok b →
      (b.snapshotType = "STANDARD".toList ∨ b.snapshotType = "ARCHIVE".toList) ∧
      (ToUpper up (configGet config snapshotTypeKey) = [] →
        b.snapshotType = "STANDARD".toList) ∧
      (ToUpper up (configGet config snapshotTypeKey) ≠ [] →
        b.snapshotType = ToUpper up (configGet config snapshotTypeKey))) ∧
    (∀ creds, validateKeys = none → credentials = .ok creds →
      ToUpper up (configGet config snapshotTypeKey) ≠ [] →
      ToUpper up (configGet config snapshotTypeKey) ≠ "STANDARD".toList →
      ToUpper up (configGet config snapshotTypeKey) ≠ "ARCHIVE".toList →
      Init up tbl config validateKeys credentials newService =
        .error (.text ("unsupported snapshot type: ".toList ++
          Quote tbl (ToUpper up (configGet config snapshotTypeKey))))) ∧
    (∀ creds, validateKeys = none → credentials = .ok creds → newService = none →
      (ToUpper up (configGet config snapshotTypeKey) = [] ∨
        ToUpper up (configGet config snapshotTypeKey) = "STANDARD".toList ∨
        ToUpper up (configGet config snapshotTypeKey) = "ARCHIVE".toList) →
      ∃ b, Init up tbl config validateKeys credentials newService = .ok b) := by
  refine ⟨?_, ?_, ?_⟩
  · intro b hb
    unfold Init at hb
    cases validateKeys with
    | some err => simp at hb
    | none =>
      cases credentials with
      | error err => simp at hb
      | ok creds =>
        cases newService with
        | some err =>
          simp only at hb
          split at hb <;> simp at hb
        | none =>
          by_cases h1 : ToUpper up (configGet config snapshotTypeKey) = []
          · simp only [h1, ite_true, Except.ok.injEq] at hb
            subst hb
            simp [h1]
          · by_cases h2 : ToUpper up (configGet config snapshotTypeKey) = "STANDARD".toList ∨
                ToUpper up (configGet config snapshotTypeKey) = "ARCHIVE".toList
            · simp only [h1, h2, ite_true, ite_false, Except.ok.injEq] at hb
              subst hb
              exact ⟨h2, fun h => absurd h h1, fun _ => rfl⟩
            · simp only [h1, h2, ite_false] at hb
              cases hb
  · intro creds hv hc h1 h2 h3
    have h4 : ¬ (ToUpper up (configGet config snapshotTypeKey) = "STANDARD".toList ∨
        ToUpper up (configGet config snapshotTypeKey) = "ARCHIVE".toList) := by
      rintro (h | h)
      · exact h2 h
      · exact h3 h
    simp only [Init, hv, hc, h1, h4, ite_false]
  · intro creds hv hc hn ht
    by_cases h1 : ToUpper up (configGet config snapshotTypeKey) = []
    · simp only [Init, hv, hc, hn, h1, ite_true]
      exact ⟨_, rfl⟩
    · have h2 : ToUpper up (configGet config snapshotTypeKey) = "STANDARD".toList ∨
          ToUpper up (configGet config snapshotTypeKey) = "ARCHIVE".toList := by
        rcases ht with h | h | h
        · exact absurd h h1
        · exact Or.inl h
        · exact Or.inr h
      simp only [Init, hv, hc, hn, h1, h2, ite_true, ite_false]
      exact ⟨_, rfl⟩

/-- C18, as the claim states it, fails: with the `project` key set to `p1`,
no `volumeProject` key and the credentials of project `c1`, the volume
project is `c1`, not the configured owning project `p1`. -/
theorem init_projects_counterexample :
    configGet (some [(projectKey, "p1".toList)]) volumeProjectKey = [] ∧
    Init id (fun _ => true) (some [(projectKey, "p1".toList)]) none
        (.ok { ProjectID := "c1".toList }) none =
      .ok { snapshotLocation := [], volumeProject := "c1".toList,
            snapshotProject := "p1".toList, snapshotType := "STANDARD".toList } ∧
    "c1".toList ≠ "p1".toList :=
  ⟨by decide, by rfl, by decide⟩

/-- C18, amended. Project defaulting: after a successful initialization the
volume project is the `volumeProject` value when that is set and not empty,
and else the project ID of the credentials; the snapshot (owning) project is
the `project` value when that is set and not empty, and else the volume
project. -/
theorem init_projects (up : Char → Char) (tbl : Char → Bool) (config : GoMap)
    (validateKeys : Option GoError) (credentials : Except GoError Credentials)
    (newService : Option GoError) (b : VolumeSnapshotter)
    (hb : Init up tbl config validateKeys credentials newService = .ok b) :
    ∃ creds, credentials = .ok creds ∧
      b.volumeProject =
        (if configGet config volumeProjectKey = [] then creds.ProjectID
         else configGet config volumeProjectKey) ∧
      b.snapshotProject =
        (if configGet config projectKey = [] then b.volumeProject
         else configGet config projectKey) := by
  unfold Init at hb
  cases validateKeys with
  | some err => simp at hb
  | none =>
    cases credentials with
    | error err => simp at hb
    | ok creds =>
      refine ⟨creds, rfl, ?_⟩
      cases newService with
      | some err =>
        simp only at hb
        split at hb <;> simp at hb
      | none =>
        simp only at hb
        split at hb
        · simp at hb
        · rename_i ty hty
          simp only [Except.ok.injEq] at hb
          subst hb
          exact ⟨rfl, rfl⟩

/-- Witness of C18: a configuration with only the `volumeProject` key. -/
theorem init_projects_witness :
    ∃ creds, (Except.ok { ProjectID := "c1".toList } : Except GoError Credentials) =
        .ok creds ∧
      "v1".toList =
        (if configGet (some [(volumeProjectKey, "v1".toList)]) volumeProjectKey = []
          then creds.ProjectID
         else configGet (some [(volumeProjectKey, "v1".toList)]) volumeProjectKey) ∧
      "v1".toList =
        (if configGet (some [(volumeProjectKey, "v1".toList)]) projectKey = [] then "v1".toList
         else configGet (some [(volumeProjectKey, "v1".toList)]) projectKey) :=
  init_projects id (fun _ => true) (some [(volumeProjectKey, "v1".toList)]) none
    (.ok { ProjectID := "c1".toList }) none
    { snapshotLocation := [], volumeProject := "v1".toList, snapshotProject := "v1".toList,
      snapshotType := "STANDARD".toList } (by rfl)

/-! ## The claim that tagging is never fatal -/

/-- The runs of `getSnapshotTags` that abort: those where the description
decodes without error to the `nil` map, as the document `null` does, and
there are new tags, which the merge then writes into the `nil` map. -/
theorem getSnapshotTags_eq_none_iff (T : GoMap) (d : Str) :
    getSnapshotTags T d = none ↔
      d ≠ [] ∧ Unmarshal d none = (none, none) ∧ T.getD [] ≠ [] := by
  have hfin : ∀ m : GoMap,
      (if mapLen m = 0 then some []
        else match Marshal m with
          | .error _ => some []
          | .ok tagsJSON => some tagsJSON) ≠ (none : Option Str) := by
    intro m
    split
    · simp
    · cases m <;> simp [Marshal]
  by_cases hd : d = []
  · subst hd
    simp only [getSnapshotTags, ne_eq, not_true_eq_false, ite_false, false_and, iff_false]
    exact hfin T
  · cases hu : Unmarshal d none with
    | mk m err =>
      cases err with
      | some e =>
        simp only [getSnapshotTags, hd, ne_eq, not_false_eq_true, ite_true, hu, true_and]
        constructor
        · intro h; exact absurd h (hfin T)
        · rintro ⟨h, -⟩; simp at h
      | none =>
        cases hl : T.getD [] with
        | nil =>
          have hr : rangeAssign T m = some m := by simp [rangeAssign, hl]
          simp only [getSnapshotTags, hd, ne_eq, not_false_eq_true, ite_true, hu, hr,
            true_and, not_true_eq_false, and_false, iff_false]
          exact hfin m
        | cons e es =>
          cases m with
          | none =>
            have hr : rangeAssign T none = none := by simp [rangeAssign, hl]
            simp [getSnapshotTags, hd, hu, hr]
          | some l =>
            have hr : rangeAssign T (some l) =
                some (some ((e :: es).foldl (fun acc p => mapSet acc p.1 p.2) l)) := by
              simp [rangeAssign, hl]
            simp only [getSnapshotTags, hd, ne_eq, not_false_eq_true, ite_true, hu, hr,
              true_and, Prod.mk.injEq, and_true]
            constructor
            · intro h; exact absurd h (hfin _)
            · rintro ⟨h, -⟩; simp at h

/-- C20, the code at a failing input: the description `null` is well-formed
JSON that decodes without error and leaves the map of tags `nil`; with the new
tag `a` = `b` the merge writes into that `nil` map and the run aborts, so
`getSnapshotTags` returns no string. With no new tags the same description
gives the empty string. -/
theorem getSnapshotTags_null_failing :
    Unmarshal "null".toList none = (none, none) ∧
    getSnapshotTags (some [("a".toList, "b".toList)]) "null".toList = none ∧
    getSnapshotTags none "null".toList = some [] := by
  decide

/-! ## The claim that tag merge is idempotent -/

theorem sortEntries_idem (l : TagMap) : sortEntries (sortEntries l) = sortEntries l := by
  haveI : IsTotal (Str × Str) (fun a b => a.1 ≤ b.1) := ⟨fun a b => le_total a.1 b.1⟩
  haveI : IsTrans (Str × Str) (fun a b => a.1 ≤ b.1) := ⟨fun a b c h1 h2 => le_trans h1 h2⟩
  unfold sortEntries
  exact (List.sorted_insertionSort (fun a b : Str × Str => a.1 ≤ b.1) l).insertionSort_eq

/-- Assigning to a key the value it has leaves the map as it is. -/
theorem mapSet_of_mem (m : TagMap) (k v : Str) (hnd : (m.map Prod.fst).Nodup)
    (h : (k, v) ∈ m) : mapSet m k v = m := by
  have hany : m.any (fun p => p.1 == k) = true := by
    simp only [List.any_eq_true, beq_iff_eq]
    exact ⟨(k, v), h, rfl⟩
  simp only [mapSet, hany, ite_true]
  conv_rhs => rw [← List.map_id m]
  apply List.map_congr_left
  intro p hp
  by_cases e : p.1 = k
  · have h1 : mapGet (some m) k = some v := (mapGet_eq_some_iff m k v hnd).2 h
    have h2 : mapGet (some m) k = some p.2 :=
      (mapGet_eq_some_iff m k p.2 hnd).2 (by rw [← e]; exact hp)
    have h3 : v = p.2 := by
      rw [h1] at h2
      exact Option.some.inj h2
    simp only [e, beq_self_eq_true, ite_true, id_eq]
    exact Prod.ext e.symm h3
  · have hb : (p.1 == k) = false := by simpa using e
    simp [hb]

theorem foldl_mapSet_of_mem (l m : TagMap) (hnd : (m.map Prod.fst).Nodup)
    (h : ∀ p ∈ l, p ∈ m) : l.foldl (fun acc p => mapSet acc p.1 p.2) m = m := by
  induction l with
  | nil => rfl
  | cons p t ih =>
    rw [List.foldl_cons, mapSet_of_mem m p.1 p.2 hnd (h p (by simp))]
    exact ih fun q hq => h q (List.mem_cons_of_mem _ hq)

theorem getSnapshotTags_of_error (T : GoMap) (d : Str) (e : JSONError) (hd : d ≠ [])
    (herr : (Unmarshal d none).2 = some e) : getSnapshotTags T d = getSnapshotTags T [] := by
  cases hu : Unmarshal d none with
  | mk m err =>
    rw [hu] at herr
    simp only at herr
    subst herr
    simp [getSnapshotTags, hd, hu]

/-- The entries of the new tags are entries of the map that is encoded. -/
theorem mem_of_mapGet_merged (T : GoMap) (D X : TagMap)
    (hT : ((T.getD []).map Prod.fst).Nodup) (hX : (X.map Prod.fst).Nodup)
    (hget : ∀ k, mapGet (some X) k = mergedGet T (some D) k) :
    ∀ p ∈ T.getD [], p ∈ X := by
  intro p hp
  cases T with
  | none => simp at hp
  | some l =>
    simp only [Option.getD_some] at hp hT
    have h1 : mapGet (some l) p.1 = some p.2 := (mapGet_eq_some_iff l p.1 p.2 hT).2 hp
    have h2 : mapGet (some X) p.1 = some p.2 := by
      rw [hget p.1, mergedGet, h1]
    exact (mapGet_eq_some_iff X p.1 p.2 hX).1 h2

/-- Running `getSnapshotTags` again on a description that encodes a map which
already holds the new tags gives that description. -/
theorem getSnapshotTags_rerun (T : GoMap) (X : TagMap) (out : Str)
    (hX : (X.map Prod.fst).Nodup) (hne : X ≠ []) (hT : ∀ p ∈ T.getD [], p ∈ X)
    (hm : Marshal (some X) = .ok out) : getSnapshotTags T out = some out := by
  obtain ⟨out2, hm2, hu⟩ := Unmarshal_Marshal X hne hX
  have e : out2 = out := by
    rw [hm] at hm2
    exact (Except.ok.inj hm2).symm
  subst e
  have hout : out2 = '{' :: ((",".toList).intercalate ((sortEntries X).map encodeEntry) ++
      ['}']) := by
    have : Marshal (some X) = .ok ('{' :: ((",".toList).intercalate
        ((sortEntries X).map encodeEntry) ++ ['}'])) := rfl
    rw [hm] at this
    exact Except.ok.inj this
  have hne2 : out2 ≠ [] := by rw [hout]; simp
  have hfold : (T.getD []).foldl (fun acc p => mapSet acc p.1 p.2) (sortEntries X) =
      sortEntries X :=
    foldl_mapSet_of_mem _ _ (nodup_keys_sortEntries X hX)
      (fun p hp => (sortEntries_perm X).mem_iff.2 (hT p hp))
  have hr : rangeAssign T (some (sortEntries X)) = some (some (sortEntries X)) := by
    unfold rangeAssign
    cases hl : T.getD [] with
    | nil => rfl
    | cons a t =>
      rw [hl] at hfold
      simp only [hfold]
  have hlen : ¬ mapLen (some (sortEntries X)) = 0 := by
    simp only [mapLen, List.length_eq_zero]
    exact sortEntries_ne_nil X hne
  have hm3 : Marshal (some (sortEntries X)) = .ok out2 := by
    rw [hout]
    simp only [Marshal, sortEntries_idem]
  simp only [getSnapshotTags, hne2, ne_eq, not_false_eq_true, ite_true, hu, hr, hlen,
    ite_false, hm3]

/-- C21. Tag merge is idempotent across a snapshot and restore cycle: for
new tags `T` and a disk description `d` that is empty, fails to decode, or
decodes as a JSON object, `getSnapshotTags` returns a description, and run
again with the same tags on that description (which a restored disk carries
as it is) it returns the same description. -/
theorem getSnapshotTags_idempotent (T : GoMap) (d : Str)
    (hT : ((T.getD []).map Prod.fst).Nodup)
    (hd : d = [] ∨ (∃ e, (Unmarshal d none).2 = some e) ∨
      ∃ D, Unmarshal d none = (some D, none)) :
    ∃ out, getSnapshotTags T d = some out ∧ getSnapshotTags T out = some out := by
  have key : ∃ (D X : TagMap), (X.map Prod.fst).Nodup ∧
      (∀ k, mapGet (some X) k = mergedGet T (some D) k) ∧
      getSnapshotTags T d =
        (if X = [] then some []
         else match Marshal (some X) with
           | .error _ => some []
           | .ok tagsJSON => some tagsJSON) := by
    have hempty := getSnapshotTags_final T [] [] hT (Or.inl ⟨rfl, rfl⟩)
    by_cases hde : d = []
    · subst hde
      obtain ⟨X, h1, h2, h3⟩ := hempty
      exact ⟨[], X, h1, h2, h3⟩
    · rcases hd with h | ⟨e, he⟩ | ⟨D, hD⟩
      · exact absurd h hde
      · obtain ⟨X, h1, h2, h3⟩ := hempty
        exact ⟨[], X, h1, h2, by rw [getSnapshotTags_of_error T d e hde he, h3]⟩
      · obtain ⟨X, h1, h2, h3⟩ := getSnapshotTags_final T d D hT (Or.inr ⟨hde, hD⟩)
        exact ⟨D, X, h1, h2, h3⟩
  obtain ⟨D, X, hX, hget, hout⟩ := key
  have hmem := mem_of_mapGet_merged T D X hT hX hget
  by_cases hx : X = []
  · refine ⟨[], by rw [hout, if_pos hx], ?_⟩
    have hTe : T.getD [] = [] := by
      cases hl : T.getD [] with
      | nil => rfl
      | cons p t =>
        have := hmem p (by rw [hl]; simp)
        rw [hx] at this
        simp at this
    cases T with
    | none => rfl
    | some l =>
      simp only [Option.getD_some] at hTe
      subst hTe
      rfl
  · obtain ⟨out, hm, -⟩ := Unmarshal_Marshal X hx hX
    exact ⟨out, by rw [hout, if_neg hx, hm], getSnapshotTags_rerun T X out hX hx hmem hm⟩

/-- Witness of C21: the test case of overlapping tags, with shorter names. -/
theorem getSnapshotTags_idempotent_witness :
    ∃ out, getSnapshotTags (some [("v".toList, "new".toList), ("o".toList, "new".toList)])
        "\x7b\"g\":\"old\",\"o\":\"old\"\x7d".toList = some out ∧
      getSnapshotTags (some [("v".toList, "new".toList), ("o".toList, "new".toList)]) out =
        some out :=
  getSnapshotTags_idempotent (some [("v".toList, "new".toList), ("o".toList, "new".toList)])
    "\x7b\"g\":\"old\",\"o\":\"old\"\x7d".toList (by decide)
    (Or.inr (Or.inr ⟨[("g".toList, "old".toList), ("o".toList, "old".toList)], by decide⟩))

end Velero
